import Mathlib

/-!
Verification of the TeasrSocial monetization core.

This file shallowly embeds the server-side monetization core of the
TeasrSocial repository in Lean 4 and proves properties of the embedding:

- data model (`src/unnamed/part_001`, the drizzle schema): posts, payments,
  investors, platform fees, users, with the unique constraints
  `payments.uniqueUserPost`, `investors.uniqueInvestorPost`,
  `investors.uniquePositionPost`;
- storage operations (`src/server/storage.ts`): `hasUserPaid`,
  `createPayment`, `incrementViewCount`, `markPostViral`;
- the x402 settlement simulator (`src/server/services/x402-payment.ts`):
  `calculateInvestorSplits`, `processEvmPayment`, `processSolanaPayment`,
  `processPaymentWithSplits`;
- the payment route `POST /api/posts/:id/pay` (`src/server/routes.ts`),
  modelled as a state transformer `payFlow` on an explicit database state,
  with an explicit fault-injection record for the operations whose failure
  behaviour matters (the source runs each `await` sequentially with no
  enclosing transaction, so a thrown error leaves all earlier writes);
- the media-serving route `GET /api/posts/:id/media` (access gate);
- the AES-256-GCM envelope (`src/server/services/encryption.ts`), with the
  cipher implemented concretely (AES-256 key schedule, rounds, GCM counter
  mode and GHASH over GF(2^128));
- the viral-detection cron sweep (`src/server/routes.ts`).

Modelling conventions, noted once here rather than at each definition:
monetary amounts are decimal(18,6) strings in the database and JavaScript
numbers in route arithmetic; both are embedded as exact rationals, and the
`toFixed(6)` decimal rounding the source applies when storing is modelled
explicitly by `round6`.  The comma-separated `acceptedCryptos` column is
embedded as the already-split list of codes.  Timestamps, log lines,
websocket broadcasts and the notification/DM side tables are not part of
any property and are elided.  Database rows carry numeric ids drawn from a
per-state counter standing in for generated uuids.
-/

namespace Teasr

/-- Payment type column of the payments table: the source stores the
strings "content" and "comment". -/
inductive PaymentType
| content
| comment
deriving DecidableEq

/-- Row of the posts table (fields the monetization core reads). -/
structure Post where
  id : String
  creatorId : String
  price : ℚ
  isFree : Bool
  buyoutPrice : Option ℚ
  acceptedCryptos : List String
  maxInvestors : ℕ
  investorRevenueShare : ℚ
  commentsLocked : Bool
  viewCount : ℕ
  upvoteCount : ℕ
  isViral : Bool
  title : String
  mediaType : String
  encryptedMediaPath : String
  blurredThumbnailPath : String
  encryptedKey : List ℕ
  keyIv : List ℕ
  keyAuthTag : List ℕ
deriving DecidableEq

/-- Row of the payments table. -/
structure PaymentRec where
  id : ℕ
  userId : String
  postId : String
  amount : ℚ
  cryptocurrency : String
  network : String
  isBuyout : Bool
  transactionHash : String
  paymentType : PaymentType
deriving DecidableEq

/-- Row of the investors table. -/
structure InvestorRow where
  id : ℕ
  postId : String
  userId : String
  position : ℕ
  investmentAmount : ℚ
  totalEarnings : ℚ
deriving DecidableEq

/-- Row of the platform_fees table. -/
structure PlatformFeeRow where
  id : ℕ
  paymentId : ℕ
  postId : String
  amount : ℚ
  cryptocurrency : String
  status : String
deriving DecidableEq

/-- Row of the users table (fields the payment flow reads). -/
structure UserRow where
  id : String
  walletAddress : String
deriving DecidableEq

/-- One investor line of a simulated settlement. -/
structure PaymentSplit where
  recipient : String
  amount : ℚ
  position : ℕ
deriving DecidableEq

/-- The breakdown the x402 service logs for one payment: platform fee,
creator amount and the optional investor split amounts. -/
structure SettlementBreakdown where
  platformAmount : ℚ
  creatorAmount : ℚ
  investorAmounts : List ℚ
deriving DecidableEq

/-- The shared relational state: the four monetization tables plus users,
and a counter standing in for uuid generation. -/
structure DB where
  posts : List Post
  payments : List PaymentRec
  investors : List InvestorRow
  platformFees : List PlatformFeeRow
  users : List UserRow
  x402Log : List SettlementBreakdown
  nextId : ℕ
deriving DecidableEq

/-- Decimal rounding to 6 places, the effect of `Number.toFixed(6)` before
an amount is stored back into a decimal(18,6) column. -/
def round6 (q : ℚ) : ℚ := (round (q * 1000000) : ℤ) / 1000000

/-- The configured flat platform fee: `PLATFORM_FEE_USDC = 0.05`. -/
def PLATFORM_FEE_USDC : ℚ := 5 / 100

/-- Storage `getPost`: first row of the posts table with the given id. -/
def getPost (db : DB) (pid : String) : Option Post :=
  db.posts.find? (fun p => decide (p.id = pid))

/-- Payment rows matching a (payer, post, paymentType) tuple. -/
def paymentsFor (db : DB) (uid pid : String) (t : PaymentType) : List PaymentRec :=
  db.payments.filter (fun r => decide (r.userId = uid ∧ r.postId = pid ∧ r.paymentType = t))

/-- Storage `hasUserPaid`: returns true outright when the post exists and
is free, otherwise reports whether a matching payment row exists. -/
def hasUserPaid (db : DB) (uid pid : String) (t : PaymentType) : Bool :=
  match getPost db pid with
  | some post => if post.isFree then true else !(paymentsFor db uid pid t).isEmpty
  | none => !(paymentsFor db uid pid t).isEmpty

/-- Storage `incrementViewCount`: bumps the view counter of one post. -/
def incrementViewCount (db : DB) (pid : String) : DB :=
  { db with posts := db.posts.map (fun p => if p.id = pid then { p with viewCount := p.viewCount + 1 } else p) }

/-- Storage `markPostViral`: sets the one-way isViral flag of one post. -/
def markPostViral (db : DB) (pid : String) : DB :=
  { db with posts := db.posts.map (fun p => if p.id = pid then { p with isViral := true } else p) }

/-- Investor rows of one post (insertion order; the source orders by
position, and rows are only ever appended with increasing positions, so
stored order and position order coincide). -/
def investorsFor (db : DB) (pid : String) : List InvestorRow :=
  db.investors.filter (fun i => decide (i.postId = pid))

/-- Storage `getInvestorCount`. -/
def getInvestorCount (db : DB) (pid : String) : ℕ :=
  (investorsFor db pid).length

/-- Column values for a payments insert. -/
structure InsertPayment where
  userId : String
  postId : String
  amount : ℚ
  cryptocurrency : String
  network : String
  isBuyout : Bool
  transactionHash : String
  paymentType : PaymentType
deriving DecidableEq

/-- Storage `createPayment`: inserts a payment row; the database raises on
the `uniqueUserPost` unique constraint over (userId, postId, paymentType),
which the model reports as an error result. -/
def createPayment (db : DB) (ins : InsertPayment) : Except Unit (PaymentRec × DB) :=
  if db.payments.any (fun r => decide (r.userId = ins.userId ∧ r.postId = ins.postId ∧ r.paymentType = ins.paymentType)) then
    .error ()
  else
    let row : PaymentRec :=
      { id := db.nextId, userId := ins.userId, postId := ins.postId, amount := ins.amount,
        cryptocurrency := ins.cryptocurrency, network := ins.network, isBuyout := ins.isBuyout,
        transactionHash := ins.transactionHash, paymentType := ins.paymentType }
    .ok (row, { db with payments := db.payments ++ [row], nextId := db.nextId + 1 })

/-- Column values for an investors insert. -/
structure InsertInvestor where
  postId : String
  userId : String
  position : ℕ
  investmentAmount : ℚ
deriving DecidableEq

/-- Investors insert; the database raises on either unique constraint
(`uniqueInvestorPost` over (postId, userId), `uniquePositionPost` over
(postId, position)), which the model reports as an error result.  A fresh
row starts with totalEarnings 0 as in the route (`totalEarnings: '0.00'`). -/
def insertInvestor (db : DB) (ins : InsertInvestor) : Except Unit DB :=
  if db.investors.any (fun r => decide ((r.postId = ins.postId ∧ r.userId = ins.userId) ∨ (r.postId = ins.postId ∧ r.position = ins.position))) then
    .error ()
  else
    .ok { db with
            investors := db.investors ++
              [{ id := db.nextId, postId := ins.postId, userId := ins.userId,
                 position := ins.position, investmentAmount := ins.investmentAmount,
                 totalEarnings := 0 }],
            nextId := db.nextId + 1 }

/-- Platform fee insert (no unique constraint on this table). -/
def insertPlatformFee (db : DB) (paymentId : ℕ) (pid : String) : DB :=
  { db with
      platformFees := db.platformFees ++
        [{ id := db.nextId, paymentId := paymentId, postId := pid,
           amount := PLATFORM_FEE_USDC, cryptocurrency := "USDC", status := "completed" }],
      nextId := db.nextId + 1 }

/-- Lightweight investor record handed to the x402 service
(`{userId, walletAddress, position}`). -/
structure InvestorWallet where
  userId : String
  walletAddress : String
  position : ℕ
deriving DecidableEq

/-- X402PaymentService.calculateInvestorSplits: equal split of
`(payment - platformFee) * percent/100` across the investor list, each
amount rendered with `toFixed(6)`. -/
def calculateInvestorSplits (paymentAmount : ℚ) (sharePercent : ℚ)
    (invs : List InvestorWallet) : List PaymentSplit :=
  let afterPlatformFee := paymentAmount - PLATFORM_FEE_USDC
  let investorShareTotal := afterPlatformFee * (sharePercent / 100)
  let perInvestor := investorShareTotal / invs.length
  invs.map (fun inv => { recipient := inv.walletAddress, amount := round6 perInvestor, position := inv.position })

/-- X402PaymentService.processEvmPayment breakdown: the platform gets the
flat fee, the creator gets `total - platformFee`, and the investor split
amounts are carried over verbatim; nothing is deducted for them. -/
def processEvmPayment (totalAmount : ℚ) (investorSplits : Option (List PaymentSplit)) :
    SettlementBreakdown :=
  { platformAmount := PLATFORM_FEE_USDC,
    creatorAmount := totalAmount - PLATFORM_FEE_USDC,
    investorAmounts := (investorSplits.getD []).map (·.amount) }

/-- X402PaymentService.processSolanaPayment breakdown: identical arithmetic
to the EVM path. -/
def processSolanaPayment (totalAmount : ℚ) (investorSplits : Option (List PaymentSplit)) :
    SettlementBreakdown :=
  { platformAmount := PLATFORM_FEE_USDC,
    creatorAmount := totalAmount - PLATFORM_FEE_USDC,
    investorAmounts := (investorSplits.getD []).map (·.amount) }

/-- Parameters of X402PaymentService.processPaymentWithSplits. -/
structure SplitParams where
  totalAmount : ℚ
  cryptocurrency : String
  creatorWallet : String
  investorRevenueSharePercent : ℚ
  investors : List InvestorWallet
deriving DecidableEq

/-- X402PaymentService.processPaymentWithSplits: computes investor splits
when the investor list is non-empty and the share percent is non-zero
(JavaScript truthiness of `investorRevenueSharePercent`), then routes to
the Solana or EVM path by currency. -/
def processPaymentWithSplits (p : SplitParams) : SettlementBreakdown :=
  let investorSplits : Option (List PaymentSplit) :=
    if p.investors.length > 0 ∧ p.investorRevenueSharePercent ≠ 0 then
      some (calculateInvestorSplits p.totalAmount p.investorRevenueSharePercent p.investors)
    else none
  if p.cryptocurrency = "SOL" then processSolanaPayment p.totalAmount investorSplits
  else processEvmPayment p.totalAmount investorSplits

/-- Sum of the investor amounts of a breakdown. -/
def investorSum (b : SettlementBreakdown) : ℚ := b.investorAmounts.sum

/-- Concrete settlement parameters: a 5 USDC payment on a post with a
single investor and a 10 percent revenue share. -/
def sampleSplitParams : SplitParams :=
  { totalAmount := 5, cryptocurrency := "USDC", creatorWallet := "0xc",
    investorRevenueSharePercent := 10,
    investors := [{ userId := "u1", walletAddress := "0x1", position := 1 }] }

/-- C4 counterexample: the settlement for a 5 USDC payment with one
investor at 10 percent revenue share carries investor amount 0.495 and
creatorAmount 4.95, not 5 - 0.05 - 0.495 = 4.505; the breakdown sums to
5.445, so `creator + platform + sum(investors)` is not the total amount. -/
theorem c4_counterexample :
    (processPaymentWithSplits sampleSplitParams).investorAmounts = [(495 : ℚ) / 1000] ∧
    (processPaymentWithSplits sampleSplitParams).creatorAmount
        ≠ 5 - (processPaymentWithSplits sampleSplitParams).platformAmount
            - investorSum (processPaymentWithSplits sampleSplitParams) ∧
    (processPaymentWithSplits sampleSplitParams).creatorAmount
        + (processPaymentWithSplits sampleSplitParams).platformAmount
        + investorSum (processPaymentWithSplits sampleSplitParams) ≠ 5 := by
  have hb : processPaymentWithSplits sampleSplitParams =
      { platformAmount := 5 / 100, creatorAmount := 5 - 5 / 100,
        investorAmounts := [(495 : ℚ) / 1000] } := by
    simp only [processPaymentWithSplits, sampleSplitParams, calculateInvestorSplits,
      processEvmPayment, processSolanaPayment, PLATFORM_FEE_USDC, round6]
    norm_num
  rw [hb]
  refine ⟨rfl, ?_, ?_⟩ <;> simp only [investorSum] <;> norm_num

/-- C4 amended: in every settlement breakdown the creator amount is
`totalAmount - platformAmount` with nothing deducted for investors, so
`creator + platform + sum(investorAmounts)` equals
`totalAmount + sum(investorAmounts)` rather than `totalAmount`; funds are
conserved only when the investor amounts sum to zero. -/
theorem c4_settlement_breakdown (p : SplitParams) :
    (processPaymentWithSplits p).creatorAmount
        = p.totalAmount - (processPaymentWithSplits p).platformAmount ∧
    (processPaymentWithSplits p).creatorAmount + (processPaymentWithSplits p).platformAmount
        + investorSum (processPaymentWithSplits p)
      = p.totalAmount + investorSum (processPaymentWithSplits p) := by
  have hplat : (processPaymentWithSplits p).platformAmount = PLATFORM_FEE_USDC := by
    simp only [processPaymentWithSplits, processEvmPayment, processSolanaPayment, ite_self]
  have hcreat : (processPaymentWithSplits p).creatorAmount = p.totalAmount - PLATFORM_FEE_USDC := by
    simp only [processPaymentWithSplits, processEvmPayment, processSolanaPayment, ite_self]
  rw [hplat, hcreat]
  exact ⟨rfl, by ring⟩

/-- A free post with locked comments and no investor settings, used as a
concrete scenario. -/
def freePost : Post :=
  { id := "p1", creatorId := "c1", price := 1, isFree := true, buyoutPrice := none,
    acceptedCryptos := ["USDC"], maxInvestors := 10, investorRevenueShare := 0,
    commentsLocked := true, viewCount := 0, upvoteCount := 0, isViral := false,
    title := "t", mediaType := "image", encryptedMediaPath := "m",
    blurredThumbnailPath := "/uploads/thumbnails/b.jpg",
    encryptedKey := [], keyIv := [], keyAuthTag := [] }

/-- Database holding only the free post and no payment rows. -/
def dbFree : DB :=
  { posts := [freePost], payments := [], investors := [], platformFees := [],
    users := [], x402Log := [], nextId := 0 }

/-- C7 counterexample: on a free post, `hasUserPaid` returns true for
paymentType comment even though no comment payment row exists, whereas the
claim requires the free shortcut to apply only to paymentType content. -/
theorem c7_counterexample :
    hasUserPaid dbFree "u1" "p1" PaymentType.comment = true ∧
    paymentsFor dbFree "u1" "p1" PaymentType.comment = [] := by
  exact ⟨rfl, rfl⟩

/-- C7 amended: `hasUserPaid` returns true exactly when the post exists
and is free — for any paymentType, content or comment alike — or a payment
row matching (userId, postId, paymentType) exists. -/
theorem c7_hasUserPaid_characterization (db : DB) (uid pid : String) (t : PaymentType) :
    hasUserPaid db uid pid t = true ↔
      ((∃ post, getPost db pid = some post ∧ post.isFree = true) ∨
        paymentsFor db uid pid t ≠ []) := by
  unfold hasUserPaid
  cases h : getPost db pid with
  | none =>
      simp [h, List.isEmpty_iff]
  | some post =>
      cases hf : post.isFree with
      | false => simp [h, hf, List.isEmpty_iff]
      | true => simp [h, hf]

/-- Events the viral detection worker broadcasts. -/
inductive SweepEvent
| viralNotification (postId : String) (message : String)
deriving DecidableEq

/-- The configured viral threshold (`VIRAL_UPVOTE_THRESHOLD = 10`). -/
def VIRAL_UPVOTE_THRESHOLD : ℕ := 10

/-- Effect of one cron pass on a single post: an already-viral post is
skipped; otherwise the post is promoted when its upvote count reaches the
threshold (`markPostViral`). -/
def sweepPost (p : Post) : Post :=
  if p.isViral then p
  else if VIRAL_UPVOTE_THRESHOLD ≤ p.upvoteCount then { p with isViral := true }
  else p

/-- Events the cron pass emits for a single post: one viralNotification at
the moment of promotion, nothing otherwise.  The human-readable message is
built from the post title (the creator username interpolation is elided). -/
def sweepEvents (p : Post) : List SweepEvent :=
  if p.isViral then []
  else if VIRAL_UPVOTE_THRESHOLD ≤ p.upvoteCount then [.viralNotification p.id p.title]
  else []

/-- One run of the viral detection worker over all posts: evaluates every
post, returning the updated posts and the broadcast events of the run. -/
def viralSweep (posts : List Post) : List Post × List SweepEvent :=
  (posts.map sweepPost, posts.flatMap sweepEvents)

/-- Post table after k runs of the viral detection worker. -/
def iterSweep : ℕ → List Post → List Post
  | 0, posts => posts
  | k + 1, posts => iterSweep k (viralSweep posts).1

/-- An already-viral post is left untouched and emits nothing. -/
theorem sweepPost_of_viral {p : Post} (h : p.isViral = true) :
    sweepPost p = p ∧ sweepEvents p = [] := by
  unfold sweepPost sweepEvents
  rw [h]
  exact ⟨rfl, rfl⟩

/-- Sweeping never changes a post id. -/
theorem sweepPost_id (p : Post) : (sweepPost p).id = p.id := by
  unfold sweepPost
  split
  · rfl
  · split <;> rfl

/-- Sweeping preserves the id column of the table. -/
theorem iterSweep_ids (k : ℕ) (ps : List Post) :
    (iterSweep k ps).map Post.id = ps.map Post.id := by
  induction k generalizing ps with
  | zero => rfl
  | succ k ih =>
      rw [iterSweep, ih, viralSweep]
      simp [List.map_map, Function.comp_def, sweepPost_id]

/-- A viral post survives every later run unchanged. -/
theorem mem_iterSweep_of_viral {p : Post} (h : p.isViral = true) (k : ℕ)
    {ps : List Post} (hp : p ∈ ps) : p ∈ iterSweep k ps := by
  induction k generalizing ps with
  | zero => exact hp
  | succ k ih =>
      rw [iterSweep]
      apply ih
      rw [viralSweep]
      exact List.mem_map.mpr ⟨p, hp, (sweepPost_of_viral h).1⟩

/-- Any event a post contributes carries the id of that post. -/
theorem sweepEvents_id {p : Post} {pid msg : String}
    (h : SweepEvent.viralNotification pid msg ∈ sweepEvents p) : pid = p.id := by
  unfold sweepEvents at h
  split at h
  · exact absurd h (List.not_mem_nil _)
  · split at h
    · rw [List.mem_singleton, SweepEvent.viralNotification.injEq] at h
      exact h.1
    · exact absurd h (List.not_mem_nil _)

/-- C9: once a post is viral it stays viral — every later run of the viral
detection worker keeps the row unchanged and emits no further
viralNotification for its id (given distinct post ids) — and a run
promotes a post exactly when it is not yet viral and its upvote count has
reached the threshold of 10, emitting the notification exactly then. -/
theorem c9_viral_monotone (ps : List Post) (p : Post)
    (hnodup : (ps.map Post.id).Nodup) (hp : p ∈ ps) (hv : p.isViral = true) :
    (∀ k, p ∈ iterSweep k ps) ∧
    (∀ k msg, SweepEvent.viralNotification p.id msg ∉ (viralSweep (iterSweep k ps)).2) ∧
    (∀ q : Post, ((sweepPost q).isViral = true ↔
        (q.isViral = true ∨ VIRAL_UPVOTE_THRESHOLD ≤ q.upvoteCount)) ∧
      (sweepEvents q ≠ [] ↔
        (q.isViral = false ∧ VIRAL_UPVOTE_THRESHOLD ≤ q.upvoteCount))) := by
  refine ⟨fun k => mem_iterSweep_of_viral hv k hp, ?_, ?_⟩
  · intro k msg hmem
    rw [viralSweep] at hmem
    simp only [List.mem_flatMap] at hmem
    obtain ⟨q, hq, he⟩ := hmem
    have hid : p.id = q.id := sweepEvents_id he
    have hnodup' : ((iterSweep k ps).map Post.id).Nodup := by
      rw [iterSweep_ids]; exact hnodup
    have hpk : p ∈ iterSweep k ps := mem_iterSweep_of_viral hv k hp
    have : q = p := List.inj_on_of_nodup_map hnodup' hq hpk hid.symm
    subst this
    rw [(sweepPost_of_viral hv).2] at he
    exact absurd he (List.not_mem_nil _)
  · intro q
    constructor
    · unfold sweepPost
      cases hq : q.isViral with
      | true => simp [hq]
      | false =>
          simp only [hq, Bool.false_eq_true, if_false, false_or]
          split
          · simpa using ‹VIRAL_UPVOTE_THRESHOLD ≤ q.upvoteCount›
          · simpa [hq] using ‹¬ VIRAL_UPVOTE_THRESHOLD ≤ q.upvoteCount›
    · unfold sweepEvents
      cases hq : q.isViral with
      | true => simp [hq]
      | false =>
          simp only [hq, Bool.false_eq_true, if_false, true_and]
          split
          · simpa using ‹VIRAL_UPVOTE_THRESHOLD ≤ q.upvoteCount›
          · simpa using ‹¬ VIRAL_UPVOTE_THRESHOLD ≤ q.upvoteCount›

/-- A concrete already-viral post. -/
def viralPost : Post :=
  { freePost with id := "pv", isViral := true, upvoteCount := 12 }

/-- Witness for c9_viral_monotone at a concrete one-post table. -/
theorem c9_viral_monotone_witness :
    ([viralPost].map Post.id).Nodup ∧ viralPost ∈ [viralPost] ∧
      viralPost.isViral = true ∧ viralPost ∈ iterSweep 3 [viralPost] :=
  ⟨List.nodup_singleton _, List.mem_singleton.mpr rfl, rfl,
    (c9_viral_monotone [viralPost] viralPost (List.nodup_singleton _)
      (List.mem_singleton.mpr rfl) rfl).1 3⟩

/-- JavaScript `x || "USDC"` on the cryptocurrency field: the empty string
is the falsy case of a missing value. -/
def cryptoOr (c : String) : String := if c = "" then "USDC" else c

/-- The static currency-to-networks validation table of the pay route,
keyed by deployment environment. -/
def validNetworks (isProd : Bool) : String → Option (List String)
  | "USDC" => some (if isProd then ["base-mainnet"] else ["base-sepolia", "ethereum-sepolia", "polygon-mumbai"])
  | "SOL" => some (if isProd then ["solana-mainnet"] else ["solana-devnet"])
  | "ETH" => some (if isProd then ["ethereum-mainnet"] else ["ethereum-sepolia"])
  | "MATIC" => some (if isProd then ["polygon-mainnet"] else ["polygon-mumbai"])
  | "BNB" => some (if isProd then ["bsc-mainnet"] else ["bsc-testnet"])
  | _ => none

/-- One request to POST /api/posts/:id/pay: the resolved current user
(none when the wallet header is absent) and the request body fields. -/
structure PayRequest where
  viewer : Option String
  postId : String
  amount : ℚ
  transactionHash : Option String
  cryptocurrency : String
  network : Option String
  isBuyout : Bool
deriving DecidableEq

/-- Fault injection for the awaited storage writes of the pay route that
can reject.  The source wraps the whole handler in one try/catch with no
transaction, so a rejected await surfaces as a 500 response while every
earlier write stays committed.  `distributionAt k` makes the k-th earnings
update of the distribution loop reject after k investors were credited. -/
structure Faults where
  feeInsert : Bool
  investorInsert : Bool
  distributionAt : Option ℕ
deriving DecidableEq

/-- No injected faults: the behaviour of the source when storage works. -/
def noFaults : Faults := { feeInsert := false, investorInsert := false, distributionAt := none }

/-- Outcome of one pay request: the HTTP-level responses of the route. -/
inductive PayResult
| unauthorized
| postNotFound
| currencyNotAccepted
| invalidNetwork
| slotsFull
| internalError
| success (alreadyPaid : Bool)
deriving DecidableEq

/-- Write-back of one investor earnings update
(`db.update(investors).set({totalEarnings}).where(eq(investors.id, ...))`). -/
def setInvestorEarnings (db : DB) (rowId : ℕ) (v : ℚ) : DB :=
  { db with investors := db.investors.map (fun r => if r.id = rowId then { r with totalEarnings := v } else r) }

/-- The revenue distribution loop: for each fetched investor row, store
`(row.totalEarnings + perShare).toFixed(6)`.  On an injected fault the
loop stops with the rows updated so far still written (error carries the
partial state). -/
def distributeAux (fault : Option ℕ) (per : ℚ) : List InvestorRow → ℕ → DB → Except DB DB
  | [], _, db => .ok db
  | r :: rest, idx, db =>
    if fault = some idx then .error db
    else distributeAux fault per rest (idx + 1) (setInvestorEarnings db r.id (round6 (r.totalEarnings + per)))

/-- Investor wallet list handed to the x402 service: wallet addresses
resolved from the users table, empty when missing, then filtered to the
rows with a wallet. -/
def investorsWithWallets (db : DB) (rows : List InvestorRow) : List InvestorWallet :=
  (rows.map (fun r =>
    { userId := r.userId,
      walletAddress := ((db.users.find? (fun u => decide (u.id = r.userId))).map UserRow.walletAddress).getD "",
      position := r.position })).filter (fun w => decide (w.walletAddress ≠ ""))

/-- Tail of the route after settlement: the comment access grant (a second
createPayment with paymentType comment and amount 0 when the post locks
comments), then the success response.  Broadcasts, the purchase
notification and the auto-DM have no effect on the modelled state and are
elided. -/
def finishPay (db : DB) (post : Post) (uid : String) (req : PayRequest) : PayResult × DB :=
  if post.commentsLocked then
    match createPayment db
        { userId := uid, postId := post.id, amount := 0,
          cryptocurrency := cryptoOr req.cryptocurrency,
          network := req.network.getD "base-sepolia", isBuyout := false,
          transactionHash := req.transactionHash.getD "mock_tx_comment",
          paymentType := .comment } with
    | .error _ => (.internalError, db)
    | .ok (_, db2) => (.success false, db2)
  else (.success false, db)

/-- Creator row lookup of the pay route
(`db.select().from(users).where(eq(users.id, post.creatorId)).limit(1)`). -/
def creatorOf (db : DB) (post : Post) : Option UserRow :=
  db.users.find? (fun u => decide (u.id = post.creatorId))

/-- Count of content payments recorded for a post; queried by the route
right after its own insert, so it already includes the current payment. -/
def paymentNumberOf (db : DB) (pid : String) : ℕ :=
  (db.payments.filter (fun r => decide (r.postId = pid ∧ r.paymentType = PaymentType.content))).length

/-- The per-investor share of a qualifying payment:
`(amount - platformFee) * revenueSharePercent/100 / investorCount`. -/
def perInvestorShare (req : PayRequest) (post : Post) (k : ℕ) : ℚ :=
  (req.amount - PLATFORM_FEE_USDC) * (post.investorRevenueShare / 100) / k

/-- Appends one simulated settlement to the x402 log. -/
def appendLog (db : DB) (b : SettlementBreakdown) : DB :=
  { db with x402Log := db.x402Log ++ [b] }

/-- The x402 call of the distribution branch: creator wallet, revenue
share percent and the wallet-bearing investors. -/
def distributionSettlement (db1 db2 : DB) (post : Post) (req : PayRequest) : SettlementBreakdown :=
  processPaymentWithSplits
    { totalAmount := req.amount, cryptocurrency := cryptoOr req.cryptocurrency,
      creatorWallet := (((creatorOf db1 post).map UserRow.walletAddress).getD ""),
      investorRevenueSharePercent := post.investorRevenueShare,
      investors := investorsWithWallets db2 (investorsFor db1 post.id) }

/-- The x402 call of the plain branch: no investors passed. -/
def regularSettlement (db1 : DB) (post : Post) (req : PayRequest) : SettlementBreakdown :=
  processPaymentWithSplits
    { totalAmount := req.amount, cryptocurrency := cryptoOr req.cryptocurrency,
      creatorWallet := (((creatorOf db1 post).map UserRow.walletAddress).getD ""),
      investorRevenueSharePercent := 0, investors := [] }

/-- The three-way branch of the pay route after the payment row and (for
non-free posts) the platform fee row are written: buyout slot assignment,
investor revenue distribution, or plain settlement, each followed by the
comment grant.  `db1` is the state after those writes, `post` the row as
fetched at the start of the request, `maxSlots` the already-computed
`post.maxInvestors || 10`. -/
def payBranch (fs : Faults) (db1 : DB) (post : Post) (uid : String) (req : PayRequest)
    (maxSlots : ℕ) : PayResult × DB :=
  if req.isBuyout && decide ((investorsFor db1 post.id).length < maxSlots) then
    if fs.investorInsert then (.internalError, db1)
    else
      match insertInvestor db1
          { postId := post.id, userId := uid,
            position := (investorsFor db1 post.id).length + 1,
            investmentAmount := post.buyoutPrice.getD post.price } with
      | .error _ => (.internalError, db1)
      | .ok db2 => finishPay db2 post uid req
  else if decide (maxSlots < paymentNumberOf db1 post.id)
      && decide ((investorsFor db1 post.id).length = maxSlots)
      && decide (0 < post.investorRevenueShare) then
    match distributeAux fs.distributionAt (perInvestorShare req post (investorsFor db1 post.id).length)
        (investorsFor db1 post.id) 0 db1 with
    | .error dbPartial => (.internalError, dbPartial)
    | .ok db2 =>
      finishPay
        (if (creatorOf db1 post).isSome then appendLog db2 (distributionSettlement db1 db2 post req) else db2)
        post uid req
  else
    finishPay
      (if (creatorOf db1 post).isSome && !post.isFree then appendLog db1 (regularSettlement db1 post req) else db1)
      post uid req

/-- The pay route from the successful payment insert onwards: platform fee
insert for non-free posts (a rejected insert aborts the request with the
payment row already committed), then the three-way branch. -/
def payAfterInsert (fs : Faults) (db : DB) (post : Post) (uid : String) (req : PayRequest)
    (payRec : PaymentRec) (maxSlots : ℕ) : PayResult × DB :=
  if post.isFree then payBranch fs db post uid req maxSlots
  else if fs.feeInsert then (.internalError, db)
  else payBranch fs (insertPlatformFee db payRec.id post.id) post uid req maxSlots

/-- The network the route settles on: the request value or the
environment default. -/
def selectedNetwork (isProd : Bool) (req : PayRequest) : String :=
  req.network.getD (if isProd then "base-mainnet" else "base-sepolia")

/-- The network validation check of the pay route: rejected when the
cryptocurrency is truthy, appears in the validation table, and the
selected network is not among its valid networks. -/
def networkBad (isProd : Bool) (req : PayRequest) : Bool :=
  req.cryptocurrency != "" &&
    (match validNetworks isProd req.cryptocurrency with
     | some nets => !nets.contains (selectedNetwork isProd req)
     | none => false)

/-- The effective slot bound of the route: `post.maxInvestors || 10`. -/
def maxSlotsOf (post : Post) : ℕ :=
  if post.maxInvestors = 0 then 10 else post.maxInvestors

/-- Column values of the content payment insert of the pay route. -/
def contentInsert (isProd : Bool) (uid : String) (req : PayRequest) (post : Post) : InsertPayment :=
  { userId := uid, postId := post.id, amount := req.amount,
    cryptocurrency := cryptoOr req.cryptocurrency,
    network := selectedNetwork isProd req, isBuyout := req.isBuyout,
    transactionHash := req.transactionHash.getD "mock_tx",
    paymentType := .content }

/-- The pay route POST /api/posts/:id/pay as a state transformer: resolve
the user, fetch the post, bump the view counter, validate the currency,
short-circuit on an existing content payment, validate the network,
reject a buyout when the investor pool is full, insert the payment row,
and continue with `payAfterInsert`. -/
def payFlow (isProd : Bool) (fs : Faults) (db : DB) (req : PayRequest) : PayResult × DB :=
  match req.viewer with
  | none => (.unauthorized, db)
  | some uid =>
    match getPost db req.postId with
    | none => (.postNotFound, db)
    | some post =>
      if !post.acceptedCryptos.contains req.cryptocurrency then
        (.currencyNotAccepted, incrementViewCount db req.postId)
      else if hasUserPaid (incrementViewCount db req.postId) uid post.id .content then
        (.success true, incrementViewCount db req.postId)
      else if networkBad isProd req then
        (.invalidNetwork, incrementViewCount db req.postId)
      else if req.isBuyout && decide (maxSlotsOf post ≤ getInvestorCount (incrementViewCount db req.postId) post.id) then
        (.slotsFull, incrementViewCount db req.postId)
      else
        match createPayment (incrementViewCount db req.postId) (contentInsert isProd uid req post) with
        | .error _ => (.internalError, incrementViewCount db req.postId)
        | .ok (payRec, db2) => payAfterInsert fs db2 post uid req payRec (maxSlotsOf post)

@[simp] theorem incrementViewCount_payments (db : DB) (pid : String) :
    (incrementViewCount db pid).payments = db.payments := rfl

@[simp] theorem incrementViewCount_investors (db : DB) (pid : String) :
    (incrementViewCount db pid).investors = db.investors := rfl

@[simp] theorem incrementViewCount_platformFees (db : DB) (pid : String) :
    (incrementViewCount db pid).platformFees = db.platformFees := rfl

@[simp] theorem incrementViewCount_users (db : DB) (pid : String) :
    (incrementViewCount db pid).users = db.users := rfl

@[simp] theorem incrementViewCount_x402Log (db : DB) (pid : String) :
    (incrementViewCount db pid).x402Log = db.x402Log := rfl

@[simp] theorem incrementViewCount_nextId (db : DB) (pid : String) :
    (incrementViewCount db pid).nextId = db.nextId := rfl

@[simp] theorem setInvestorEarnings_payments (db : DB) (i : ℕ) (v : ℚ) :
    (setInvestorEarnings db i v).payments = db.payments := rfl

@[simp] theorem setInvestorEarnings_posts (db : DB) (i : ℕ) (v : ℚ) :
    (setInvestorEarnings db i v).posts = db.posts := rfl

@[simp] theorem setInvestorEarnings_platformFees (db : DB) (i : ℕ) (v : ℚ) :
    (setInvestorEarnings db i v).platformFees = db.platformFees := rfl

@[simp] theorem setInvestorEarnings_users (db : DB) (i : ℕ) (v : ℚ) :
    (setInvestorEarnings db i v).users = db.users := rfl

@[simp] theorem setInvestorEarnings_x402Log (db : DB) (i : ℕ) (v : ℚ) :
    (setInvestorEarnings db i v).x402Log = db.x402Log := rfl

@[simp] theorem setInvestorEarnings_nextId (db : DB) (i : ℕ) (v : ℚ) :
    (setInvestorEarnings db i v).nextId = db.nextId := rfl

@[simp] theorem insertPlatformFee_payments (db : DB) (pi : ℕ) (pid : String) :
    (insertPlatformFee db pi pid).payments = db.payments := rfl

@[simp] theorem insertPlatformFee_posts (db : DB) (pi : ℕ) (pid : String) :
    (insertPlatformFee db pi pid).posts = db.posts := rfl

@[simp] theorem insertPlatformFee_investors (db : DB) (pi : ℕ) (pid : String) :
    (insertPlatformFee db pi pid).investors = db.investors := rfl

@[simp] theorem insertPlatformFee_users (db : DB) (pi : ℕ) (pid : String) :
    (insertPlatformFee db pi pid).users = db.users := rfl

@[simp] theorem insertPlatformFee_x402Log (db : DB) (pi : ℕ) (pid : String) :
    (insertPlatformFee db pi pid).x402Log = db.x402Log := rfl

/-- Shape of a successful payment insert. -/
theorem createPayment_ok {db : DB} {ins : InsertPayment} {r : PaymentRec} {db2 : DB}
    (h : createPayment db ins = .ok (r, db2)) :
    db2.payments = db.payments ++ [r] ∧ db2.posts = db.posts ∧
    db2.investors = db.investors ∧ db2.platformFees = db.platformFees ∧
    db2.users = db.users ∧ db2.x402Log = db.x402Log ∧ db2.nextId = db.nextId + 1 ∧
    r.userId = ins.userId ∧ r.postId = ins.postId ∧ r.amount = ins.amount ∧
    r.paymentType = ins.paymentType ∧ r.isBuyout = ins.isBuyout := by
  unfold createPayment at h
  split at h
  · exact absurd h (by simp)
  · rw [Except.ok.injEq, Prod.mk.injEq] at h
    obtain ⟨hr, hdb⟩ := h
    subst hr
    subst hdb
    exact ⟨rfl, rfl, rfl, rfl, rfl, rfl, rfl, rfl, rfl, rfl, rfl, rfl⟩

/-- A payment insert succeeds exactly when no row matches the
uniqueUserPost constraint. -/
theorem createPayment_ok_iff {db : DB} {ins : InsertPayment} :
    (∃ r db2, createPayment db ins = .ok (r, db2)) ↔
      ¬ db.payments.any (fun r => decide (r.userId = ins.userId ∧ r.postId = ins.postId ∧ r.paymentType = ins.paymentType)) = true := by
  unfold createPayment
  split
  · simp_all
  · simp_all

/-- Shape of a successful investor insert. -/
theorem insertInvestor_ok {db : DB} {ins : InsertInvestor} {db2 : DB}
    (h : insertInvestor db ins = .ok db2) :
    db2.payments = db.payments ∧ db2.posts = db.posts ∧
    db2.investors = db.investors ++
      [{ id := db.nextId, postId := ins.postId, userId := ins.userId,
         position := ins.position, investmentAmount := ins.investmentAmount,
         totalEarnings := 0 }] ∧
    db2.platformFees = db.platformFees ∧ db2.users = db.users ∧
    db2.x402Log = db.x402Log ∧ db2.nextId = db.nextId + 1 := by
  unfold insertInvestor at h
  split at h
  · exact absurd h (by simp)
  · rw [Except.ok.injEq] at h
    subst h
    exact ⟨rfl, rfl, rfl, rfl, rfl, rfl, rfl⟩

/-- The database carried by a distribution result, whether the loop ran to
completion or stopped at an injected fault. -/
def distribDB : Except DB DB → DB
  | .error d => d
  | .ok d => d

/-- The distribution loop only writes the investors table. -/
theorem distributeAux_preserves (f : Option ℕ) (per : ℚ) :
    ∀ (l : List InvestorRow) (idx : ℕ) (db : DB),
      (distribDB (distributeAux f per l idx db)).payments = db.payments ∧
      (distribDB (distributeAux f per l idx db)).posts = db.posts ∧
      (distribDB (distributeAux f per l idx db)).platformFees = db.platformFees ∧
      (distribDB (distributeAux f per l idx db)).users = db.users ∧
      (distribDB (distributeAux f per l idx db)).x402Log = db.x402Log ∧
      (distribDB (distributeAux f per l idx db)).nextId = db.nextId := by
  intro l
  induction l with
  | nil => intro idx db; exact ⟨rfl, rfl, rfl, rfl, rfl, rfl⟩
  | cons r rest ih =>
      intro idx db
      unfold distributeAux
      split
      · exact ⟨rfl, rfl, rfl, rfl, rfl, rfl⟩
      · simpa using ih (idx + 1) (setInvestorEarnings db r.id (round6 (r.totalEarnings + per)))

/-- Bookkeeping common to every outcome of the pay route past validation:
the payments table only grows, and it grows only by comment-grant rows for
this payer and post; posts and users are untouched; the response is either
a fresh success or a 500; and a fresh success on a comment-locked post
implies a comment row was appended. -/
def ShapeOK (dbIn : DB) (post : Post) (uid : String) (res : PayResult) (dbOut : DB) : Prop :=
  ∃ tail, dbOut.payments = dbIn.payments ++ tail ∧
    (∀ r ∈ tail, r.paymentType = PaymentType.comment ∧ r.userId = uid ∧ r.postId = post.id ∧ r.amount = 0) ∧
    dbOut.posts = dbIn.posts ∧ dbOut.users = dbIn.users ∧
    (res = .success false ∨ res = .internalError) ∧
    (res = .success false → post.commentsLocked = true → tail ≠ [])

theorem shapeOK_internal (db1 : DB) (post : Post) (uid : String) :
    ShapeOK db1 post uid .internalError db1 := by
  exact ⟨[], by simp, by simp, rfl, rfl, Or.inr rfl, by simp⟩

theorem shapeOK_congr {dbIn : DB} (dbMid : DB) {dbOut : DB} {post : Post} {uid : String} {res : PayResult}
    (hpay : dbMid.payments = dbIn.payments) (hposts : dbMid.posts = dbIn.posts)
    (husers : dbMid.users = dbIn.users) (h : ShapeOK dbMid post uid res dbOut) :
    ShapeOK dbIn post uid res dbOut := by
  obtain ⟨tail, h1, h2, h3, h4, h5, h6⟩ := h
  exact ⟨tail, by rw [h1, hpay], h2, by rw [h3, hposts], by rw [h4, husers], h5, h6⟩

/-- Outcome of the comment grant: all tables except payments are
untouched, the payments table gains at most one comment row, and on a
fresh success with locked comments exactly one comment row was added. -/
theorem finishPay_shape {db : DB} {post : Post} {uid : String} {req : PayRequest}
    {res : PayResult} {db' : DB} (h : finishPay db post uid req = (res, db')) :
    ShapeOK db post uid res db' ∧ db'.investors = db.investors ∧
      db'.platformFees = db.platformFees ∧ db'.x402Log = db.x402Log := by
  unfold finishPay at h
  split at h
  next hlock =>
    split at h
    next e heq =>
      rw [Prod.mk.injEq] at h
      obtain ⟨h1, h2⟩ := h
      subst h1
      subst h2
      exact ⟨shapeOK_internal _ _ _, rfl, rfl, rfl⟩
    next r0 db2 heq =>
      rw [Prod.mk.injEq] at h
      obtain ⟨h1, h2⟩ := h
      subst h1
      subst h2
      obtain ⟨hp, hposts, hinv, hfees, husers, hlog, _, hu, hpid, hamt, hty, _⟩ := createPayment_ok heq
      refine ⟨⟨[r0], by simpa using hp, ?_, hposts, husers, Or.inl rfl, by simp⟩, hinv, hfees, hlog⟩
      intro r hr
      rw [List.mem_singleton] at hr
      subst hr
      exact ⟨hty, hu, hpid, hamt⟩
  next hlock =>
    rw [Prod.mk.injEq] at h
    obtain ⟨h1, h2⟩ := h
    subst h1
    subst h2
    refine ⟨⟨[], by simp, by simp, rfl, rfl, Or.inl rfl, ?_⟩, rfl, rfl, rfl⟩
    intro _ hc
    exact absurd hc (by simpa using hlock)

@[simp] theorem appendLog_payments (db : DB) (b : SettlementBreakdown) :
    (appendLog db b).payments = db.payments := rfl

@[simp] theorem appendLog_posts (db : DB) (b : SettlementBreakdown) :
    (appendLog db b).posts = db.posts := rfl

@[simp] theorem appendLog_investors (db : DB) (b : SettlementBreakdown) :
    (appendLog db b).investors = db.investors := rfl

@[simp] theorem appendLog_platformFees (db : DB) (b : SettlementBreakdown) :
    (appendLog db b).platformFees = db.platformFees := rfl

@[simp] theorem appendLog_users (db : DB) (b : SettlementBreakdown) :
    (appendLog db b).users = db.users := rfl

@[simp] theorem appendLog_nextId (db : DB) (b : SettlementBreakdown) :
    (appendLog db b).nextId = db.nextId := rfl

/-- Bookkeeping of the three-way branch. -/
theorem payBranch_shape {fs : Faults} {db1 : DB} {post : Post} {uid : String}
    {req : PayRequest} {maxSlots : ℕ} {res : PayResult} {db' : DB}
    (h : payBranch fs db1 post uid req maxSlots = (res, db')) :
    ShapeOK db1 post uid res db' := by
  unfold payBranch at h
  split at h
  · -- buyout slot assignment
    split at h
    · rw [Prod.mk.injEq] at h
      obtain ⟨h1, h2⟩ := h
      subst h1
      subst h2
      exact shapeOK_internal _ _ _
    · split at h
      next e heq =>
        rw [Prod.mk.injEq] at h
        obtain ⟨h1, h2⟩ := h
        subst h1
        subst h2
        exact shapeOK_internal _ _ _
      next db2 heq =>
        obtain ⟨hp, hposts, _, _, husers, _, _⟩ := insertInvestor_ok heq
        exact shapeOK_congr db2 hp hposts husers (finishPay_shape h).1
  · -- not a slot assignment: distribution or plain settlement
    split at h
    · -- revenue distribution
      split at h
      next dbPartial heq =>
        rw [Prod.mk.injEq] at h
        obtain ⟨h1, h2⟩ := h
        subst h1
        subst h2
        have hpres := distributeAux_preserves fs.distributionAt
          (perInvestorShare req post (investorsFor db1 post.id).length)
          (investorsFor db1 post.id) 0 db1
        rw [heq] at hpres
        simp only [distribDB] at hpres
        exact shapeOK_congr _ hpres.1 hpres.2.1 hpres.2.2.2.1 (shapeOK_internal _ _ _)
      next db2 heq =>
        have hpres := distributeAux_preserves fs.distributionAt
          (perInvestorShare req post (investorsFor db1 post.id).length)
          (investorsFor db1 post.id) 0 db1
        rw [heq] at hpres
        simp only [distribDB] at hpres
        have hshape := (finishPay_shape h).1
        refine shapeOK_congr _ ?_ ?_ ?_ hshape
        · split
          · simpa using hpres.1
          · exact hpres.1
        · split
          · simpa using hpres.2.1
          · exact hpres.2.1
        · split
          · simpa using hpres.2.2.2.1
          · exact hpres.2.2.2.1
    · -- plain settlement
      have hshape := (finishPay_shape h).1
      refine shapeOK_congr _ ?_ ?_ ?_ hshape
      · split
        · simp
        · rfl
      · split
        · simp
        · rfl
      · split
        · simp
        · rfl

@[simp] theorem paymentsFor_incrementViewCount (db : DB) (pid uid pid' : String) (t : PaymentType) :
    paymentsFor (incrementViewCount db pid) uid pid' t = paymentsFor db uid pid' t := rfl

@[simp] theorem investorsFor_incrementViewCount (db : DB) (pid pid' : String) :
    investorsFor (incrementViewCount db pid) pid' = investorsFor db pid' := rfl

/-- A found post carries the id it was looked up by. -/
theorem getPost_id {db : DB} {pid : String} {post : Post} (h : getPost db pid = some post) :
    post.id = pid := by
  unfold getPost at h
  have := List.find?_some h
  simpa using this

/-- View counting rewrites the posts table pointwise, bumping only the
view counter. -/
theorem getPost_incrementViewCount (db : DB) (pid pid' : String) :
    getPost (incrementViewCount db pid) pid'
      = (getPost db pid').map (fun p => if p.id = pid then { p with viewCount := p.viewCount + 1 } else p) := by
  unfold getPost incrementViewCount
  rw [List.find?_map]
  have hpred : ((fun p : Post => decide (p.id = pid'))
        ∘ fun p : Post => if p.id = pid then { p with viewCount := p.viewCount + 1 } else p)
      = fun p : Post => decide (p.id = pid') := by
    funext p
    by_cases hp : p.id = pid <;> simp [Function.comp_def, hp]
  rw [hpred]

/-- View counting does not change what anyone has paid for. -/
theorem hasUserPaid_incrementViewCount (db : DB) (pid uid pid' : String) (t : PaymentType) :
    hasUserPaid (incrementViewCount db pid) uid pid' t = hasUserPaid db uid pid' t := by
  unfold hasUserPaid
  rw [getPost_incrementViewCount]
  cases h : getPost db pid' with
  | none => rfl
  | some p =>
      simp only [Option.map_some']
      by_cases hp : p.id = pid
      · simp only [hp, if_pos rfl]
        rfl
      · simp only [if_neg hp]
        rfl

/-- Bookkeeping of the route past the payment insert. -/
theorem payAfterInsert_shape {fs : Faults} {db : DB} {post : Post} {uid : String}
    {req : PayRequest} {payRec : PaymentRec} {maxSlots : ℕ} {res : PayResult} {db' : DB}
    (h : payAfterInsert fs db post uid req payRec maxSlots = (res, db')) :
    ShapeOK db post uid res db' := by
  unfold payAfterInsert at h
  split at h
  · exact payBranch_shape h
  · split at h
    · rw [Prod.mk.injEq] at h
      obtain ⟨h1, h2⟩ := h
      subst h1
      subst h2
      exact shapeOK_internal _ _ _
    · exact shapeOK_congr (insertPlatformFee db payRec.id post.id) rfl rfl rfl (payBranch_shape h)

/-- Decomposition of a fresh-success run of the pay route: every
validation passed, the post is not free, the payer had no prior content
payment, the content row was inserted, and the rest of the route ran from
the post-insert state. -/
theorem payFlow_success_shape {isProd : Bool} {fs : Faults} {db : DB} {req : PayRequest} {db' : DB}
    (h : payFlow isProd fs db req = (.success false, db')) :
    ∃ uid post payRec db2, req.viewer = some uid ∧ getPost db req.postId = some post ∧
      post.acceptedCryptos.contains req.cryptocurrency = true ∧
      hasUserPaid db uid post.id .content = false ∧
      networkBad isProd req = false ∧
      (req.isBuyout && decide (maxSlotsOf post ≤ getInvestorCount (incrementViewCount db req.postId) post.id)) = false ∧
      post.isFree = false ∧
      paymentsFor db uid post.id .content = [] ∧
      createPayment (incrementViewCount db req.postId) (contentInsert isProd uid req post) = .ok (payRec, db2) ∧
      payAfterInsert fs db2 post uid req payRec (maxSlotsOf post) = (.success false, db') := by
  unfold payFlow at h
  split at h
  · simp at h
  next uid hv =>
    split at h
    · simp at h
    next post hpost =>
      split at h
      · simp at h
      next hacc =>
        split at h
        · simp at h
        next hpaid =>
          split at h
          · simp at h
          next hnet =>
            split at h
            · simp at h
            next hslots =>
              split at h
              · simp at h
              next payRec db2 hcp =>
                have hacc' : post.acceptedCryptos.contains req.cryptocurrency = true := by
                  simpa using hacc
                have hpaid' : hasUserPaid db uid post.id .content = false := by
                  rw [hasUserPaid_incrementViewCount] at hpaid
                  simpa using hpaid
                have hnet' : networkBad isProd req = false := by
                  simpa using hnet
                have hslots' : (req.isBuyout && decide (maxSlotsOf post ≤ getInvestorCount (incrementViewCount db req.postId) post.id)) = false := by
                  simpa using hslots
                have hid : post.id = req.postId := getPost_id hpost
                have hpost2 : getPost db post.id = some post := by rw [hid]; exact hpost
                have hpaid2 := hpaid'
                unfold hasUserPaid at hpaid2
                simp only [hpost2] at hpaid2
                cases hf : post.isFree with
                | true =>
                    rw [hf] at hpaid2
                    simp at hpaid2
                | false =>
                    rw [hf] at hpaid2
                    simp only [Bool.false_eq_true, if_false, Bool.not_eq_false',
                      List.isEmpty_iff] at hpaid2
                    exact ⟨uid, post, payRec, db2, hv, hpost, hacc', hpaid', hnet', hslots', hf, hpaid2, hcp, h⟩

/-- A negative hasUserPaid answer on an existing post means the post is
not free and no matching payment row exists. -/
theorem hasUserPaid_eq_false {db : DB} {uid : String} {post : Post} {t : PaymentType}
    (hpost : getPost db post.id = some post) (h : hasUserPaid db uid post.id t = false) :
    post.isFree = false ∧ paymentsFor db uid post.id t = [] := by
  unfold hasUserPaid at h
  simp only [hpost] at h
  cases hf : post.isFree with
  | true =>
      rw [hf] at h
      simp at h
  | false =>
      rw [hf] at h
      simp only [Bool.false_eq_true, if_false, Bool.not_eq_false', List.isEmpty_iff] at h
      exact ⟨rfl, h⟩

/-- An empty tuple query implies the uniqueUserPost insert check passes. -/
theorem any_eq_false_of_paymentsFor_nil {db : DB} {uid pid : String} {t : PaymentType}
    (h : paymentsFor db uid pid t = []) :
    db.payments.any (fun r => decide (r.userId = uid ∧ r.postId = pid ∧ r.paymentType = t)) = false := by
  unfold paymentsFor at h
  rw [List.filter_eq_nil_iff] at h
  rw [List.any_eq_false]
  intro r hr
  simpa using h r hr

/-- C10: a successful fresh content payment on a comment-locked post also
appends a second payment row with paymentType comment and amount 0 for the
same payer and post. -/
theorem c10_comment_access_grant (isProd : Bool) (db : DB) (req : PayRequest) (post : Post) (db' : DB)
    (hpost : getPost db req.postId = some post) (hlock : post.commentsLocked = true)
    (hrun : payFlow isProd noFaults db req = (.success false, db')) :
    ∃ uid tail r, req.viewer = some uid ∧ db'.payments = db.payments ++ tail ∧ r ∈ tail ∧
      r.userId = uid ∧ r.postId = post.id ∧ r.paymentType = PaymentType.comment ∧ r.amount = 0 := by
  obtain ⟨uid, post', payRec, db2, hv, hpost', hacc, hpaid, hnet, hslots, hfree, hempty, hcp, hai⟩ :=
    payFlow_success_shape hrun
  rw [hpost] at hpost'
  injection hpost' with hpp
  subst hpp
  obtain ⟨tail, htl, hprops, _, _, _, hne⟩ := payAfterInsert_shape hai
  obtain ⟨hp2, _⟩ := createPayment_ok hcp
  have hne' : tail ≠ [] := hne rfl hlock
  cases tail with
  | nil => exact absurd rfl hne'
  | cons r rest =>
      refine ⟨uid, payRec :: r :: rest, r, hv, ?_, List.mem_cons_of_mem _ (List.mem_cons_self _ _), ?_, ?_, ?_, ?_⟩
      · rw [htl, hp2]
        simp
      · exact (hprops r (List.mem_cons_self _ _)).2.1
      · exact (hprops r (List.mem_cons_self _ _)).2.2.1
      · exact (hprops r (List.mem_cons_self _ _)).1
      · exact (hprops r (List.mem_cons_self _ _)).2.2.2

/-- A non-free, comment-locked post accepting USDC. -/
def paidPost : Post := { freePost with id := "p2", isFree := false, price := 5 }

/-- Database holding only the paid post, no other rows. -/
def paidDb : DB :=
  { posts := [paidPost], payments := [], investors := [], platformFees := [],
    users := [], x402Log := [], nextId := 0 }

/-- A plain (non-buyout) USDC payment request for the paid post. -/
def paidReq : PayRequest :=
  { viewer := some "u1", postId := "p2", amount := 5, transactionHash := none,
    cryptocurrency := "USDC", network := none, isBuyout := false }

/-- Witness for c10_comment_access_grant on a concrete run. -/
theorem c10_comment_access_grant_witness :
    ∃ uid tail r, paidReq.viewer = some uid ∧
      ((payFlow false noFaults paidDb paidReq).2).payments = paidDb.payments ++ tail ∧ r ∈ tail ∧
      r.userId = uid ∧ r.postId = paidPost.id ∧ r.paymentType = PaymentType.comment ∧ r.amount = 0 :=
  c10_comment_access_grant false paidDb paidReq paidPost
    (payFlow false noFaults paidDb paidReq).2 rfl rfl rfl

/-- Fault configuration that rejects the platform-fee insert. -/
def feeFault : Faults := { feeInsert := true, investorInsert := false, distributionAt := none }

/-- C5 counterexample: with the platform-fee insert rejecting, a valid
payment request on the paid post returns a 500 while the content payment
row is already committed and no platform-fee row exists — nothing rolled
back. -/
theorem c5_counterexample :
    (payFlow false feeFault paidDb paidReq).1 = PayResult.internalError ∧
    paymentsFor (payFlow false feeFault paidDb paidReq).2 "u1" "p2" PaymentType.content ≠ [] ∧
    ((payFlow false feeFault paidDb paidReq).2).platformFees = [] := by
  refine ⟨rfl, ?_, rfl⟩
  intro hc
  exact absurd hc (by decide)

/-- C5 amended: there is no enclosing transaction; the payments table is
append-only through the whole route (a failure after the insert never
removes the record), and in particular when the platform-fee insert fails
on a validated request the route answers 500 with the content payment row
committed and the platform-fee table untouched. -/
theorem c5_no_rollback (isProd : Bool) (fs : Faults) (db : DB) (req : PayRequest) :
    (∃ tail, ((payFlow isProd fs db req).2).payments = db.payments ++ tail) ∧
    (∀ uid post, req.viewer = some uid → getPost db req.postId = some post →
      post.acceptedCryptos.contains req.cryptocurrency = true →
      hasUserPaid db uid post.id .content = false →
      networkBad isProd req = false → req.isBuyout = false → fs.feeInsert = true →
      (payFlow isProd fs db req).1 = PayResult.internalError ∧
      ∃ payRec, ((payFlow isProd fs db req).2).payments = db.payments ++ [payRec] ∧
        payRec.paymentType = PaymentType.content ∧ payRec.userId = uid ∧ payRec.postId = post.id ∧
        ((payFlow isProd fs db req).2).platformFees = db.platformFees) := by
  constructor
  · -- payments are append-only on every path
    unfold payFlow
    split
    · exact ⟨[], by simp⟩
    · split
      · exact ⟨[], by simp⟩
      · split
        · exact ⟨[], by simp⟩
        · split
          · exact ⟨[], by simp⟩
          · split
            · exact ⟨[], by simp⟩
            · split
              · exact ⟨[], by simp⟩
              · split
                next heq => exact ⟨[], by simp⟩
                next payRec db2 hcp =>
                  obtain ⟨tail, htl, _⟩ :=
                    payAfterInsert_shape (Prod.mk.eta (p := payAfterInsert fs db2 _ _ _ payRec _)).symm
                  obtain ⟨hp2, _⟩ := createPayment_ok hcp
                  refine ⟨payRec :: tail, ?_⟩
                  rw [htl, hp2]
                  simp
  · -- a rejected fee insert keeps the payment row and answers 500
    intro uid post hv hpost hacc hpaid hnet hbuy hfee
    have hid : post.id = req.postId := getPost_id hpost
    have hpost2 : getPost db post.id = some post := by rw [hid]; exact hpost
    obtain ⟨hfree, hempty⟩ := hasUserPaid_eq_false hpost2 hpaid
    have hany := any_eq_false_of_paymentsFor_nil hempty
    have hpaid1 : hasUserPaid (incrementViewCount db req.postId) uid post.id .content = false := by
      rw [hasUserPaid_incrementViewCount]
      exact hpaid
    have hcpEx : ∃ payRec db2,
        createPayment (incrementViewCount db req.postId) (contentInsert isProd uid req post)
          = .ok (payRec, db2) := by
      rw [createPayment_ok_iff]
      intro hc
      simp only [contentInsert, incrementViewCount_payments] at hc
      rw [hany] at hc
      simp at hc
    obtain ⟨payRec, db2, hcp⟩ := hcpEx
    have hflow : payFlow isProd fs db req = (.internalError, db2) := by
      unfold payFlow
      simp only [hv, hpost]
      rw [hacc]
      simp only [Bool.not_true, Bool.false_eq_true, if_false]
      rw [hpaid1]
      simp only [Bool.false_eq_true, if_false]
      rw [hnet]
      simp only [Bool.false_eq_true, if_false]
      rw [hbuy]
      simp only [Bool.false_and, Bool.false_eq_true, if_false]
      simp only [hcp]
      unfold payAfterInsert
      rw [hfree]
      simp only [Bool.false_eq_true, if_false]
      rw [hfee]
      simp
    obtain ⟨hp2, _, _, hfees2, _, _, _, hu, hpid, _, hty, _⟩ := createPayment_ok hcp
    rw [hflow]
    refine ⟨rfl, payRec, ?_, ?_, ?_, ?_, ?_⟩
    · rw [hp2]
      simp
    · rw [hty]
      rfl
    · rw [hu]
      rfl
    · rw [hpid]
      rfl
    · rw [hfees2]
      rfl

/-- Witness for c5_no_rollback at the concrete fee-fault run. -/
theorem c5_no_rollback_witness :
    (∃ tail, ((payFlow false feeFault paidDb paidReq).2).payments = paidDb.payments ++ tail) ∧
    ((payFlow false feeFault paidDb paidReq).1 = PayResult.internalError ∧
      ∃ payRec, ((payFlow false feeFault paidDb paidReq).2).payments = paidDb.payments ++ [payRec] ∧
        payRec.paymentType = PaymentType.content ∧ payRec.userId = "u1" ∧ payRec.postId = paidPost.id ∧
        ((payFlow false feeFault paidDb paidReq).2).platformFees = paidDb.platformFees) :=
  ⟨(c5_no_rollback false feeFault paidDb paidReq).1,
    (c5_no_rollback false feeFault paidDb paidReq).2 "u1" paidPost rfl rfl rfl rfl rfl rfl rfl⟩

/-- Post lookup only reads the posts table. -/
theorem getPost_eq_of_posts {dbA dbB : DB} (h : dbA.posts = dbB.posts) (pid : String) :
    getPost dbA pid = getPost dbB pid := by
  unfold getPost
  rw [h]

/-- A content payment request for the free post. -/
def freeReq : PayRequest :=
  { viewer := some "u1", postId := "p1", amount := 5, transactionHash := none,
    cryptocurrency := "USDC", network := none, isBuyout := false }

/-- C1 counterexample: on a free post the pay route answers
alreadyPaid true on the first call already, and two calls leave zero
PaymentRecords for the tuple — not exactly one. -/
theorem c1_counterexample :
    (payFlow false noFaults dbFree freeReq).1 = PayResult.success true ∧
    (payFlow false noFaults (payFlow false noFaults dbFree freeReq).2 freeReq).1
      = PayResult.success true ∧
    paymentsFor (payFlow false noFaults (payFlow false noFaults dbFree freeReq).2 freeReq).2
      "u1" "p1" PaymentType.content = [] :=
  ⟨rfl, rfl, rfl⟩

/-- C1 amended: for a request whose first run is a fresh success (which
forces the post to be non-free and all validations to pass), exactly one
content PaymentRecord exists for the (payer, post, content) tuple
afterwards, and a second identical request — under any fault injection —
returns alreadyPaid true while leaving payments, investors, platform fees
and the settlement log untouched (only the view counter moves).  For free
posts the route instead answers alreadyPaid true without ever creating a
record, as exhibited by the counterexample. -/
theorem c1_pay_idempotent (isProd : Bool) (db : DB) (req : PayRequest) (uid : String)
    (post : Post) (db1 : DB) (fs2 : Faults)
    (hv : req.viewer = some uid) (hpost : getPost db req.postId = some post)
    (hrun : payFlow isProd noFaults db req = (.success false, db1)) :
    (paymentsFor db1 uid post.id PaymentType.content).length = 1 ∧
    (payFlow isProd fs2 db1 req).1 = PayResult.success true ∧
    ((payFlow isProd fs2 db1 req).2).payments = db1.payments ∧
    ((payFlow isProd fs2 db1 req).2).investors = db1.investors ∧
    ((payFlow isProd fs2 db1 req).2).platformFees = db1.platformFees ∧
    ((payFlow isProd fs2 db1 req).2).x402Log = db1.x402Log := by
  obtain ⟨uid', post', payRec, db2, hv', hpost', hacc, hpaid, hnet, hslots, hfree, hempty, hcp, hai⟩ :=
    payFlow_success_shape hrun
  rw [hv] at hv'
  injection hv' with huid
  subst huid
  rw [hpost] at hpost'
  injection hpost' with hpp
  subst hpp
  have hid : post.id = req.postId := getPost_id hpost
  obtain ⟨tail, htl, hprops, hposts1, _, _, _⟩ := payAfterInsert_shape hai
  obtain ⟨hp2, hposts2, _, _, _, _, _, hu, hpid, _, hty, _⟩ := createPayment_ok hcp
  have hu' : payRec.userId = uid := by simpa [contentInsert] using hu
  have hpid' : payRec.postId = post.id := by simpa [contentInsert] using hpid
  have hty' : payRec.paymentType = PaymentType.content := by simpa [contentInsert] using hty
  -- the payments of the state after the first call
  have hpay1 : db1.payments = db.payments ++ [payRec] ++ tail := by
    rw [htl, hp2]
    simp
  have hfor1 : paymentsFor db1 uid post.id PaymentType.content = [payRec] := by
    unfold paymentsFor at hempty ⊢
    rw [hpay1, List.filter_append, List.filter_append, hempty]
    have h1 : List.filter (fun r => decide (r.userId = uid ∧ r.postId = post.id ∧ r.paymentType = PaymentType.content)) [payRec] = [payRec] := by
      simp [hu', hpid', hty']
    have h2 : List.filter (fun r => decide (r.userId = uid ∧ r.postId = post.id ∧ r.paymentType = PaymentType.content)) tail = [] := by
      rw [List.filter_eq_nil_iff]
      intro r hr
      have := (hprops r hr).1
      simp [this]
    rw [h1, h2]
    simp
  -- the post row after the first call: only the view counter moved
  have hposts : db1.posts = (incrementViewCount db req.postId).posts := by
    rw [hposts1, hposts2]
  have hget1 : getPost db1 req.postId
      = some { post with viewCount := post.viewCount + 1 } := by
    rw [getPost_eq_of_posts hposts, getPost_incrementViewCount, hpost]
    simp [hid]
  have hget1' : getPost db1 post.id = some { post with viewCount := post.viewCount + 1 } := by
    conv_lhs => rw [hid]
    exact hget1
  have hpaid1 : hasUserPaid (incrementViewCount db1 req.postId) uid post.id .content = true := by
    rw [hasUserPaid_incrementViewCount]
    unfold hasUserPaid
    simp only [hget1']
    rw [show ({ post with viewCount := post.viewCount + 1 } : Post).isFree = post.isFree from rfl, hfree]
    simp only [Bool.false_eq_true, if_false, hfor1]
    rfl
  have hflow2 : payFlow isProd fs2 db1 req = (.success true, incrementViewCount db1 req.postId) := by
    unfold payFlow
    simp only [hv, hget1]
    rw [show ({ post with viewCount := post.viewCount + 1 } : Post).acceptedCryptos = post.acceptedCryptos from rfl, hacc]
    simp only [Bool.not_true, Bool.false_eq_true, if_false]
    rw [show ({ post with viewCount := post.viewCount + 1 } : Post).id = post.id from rfl, hpaid1]
    simp
  rw [hflow2]
  exact ⟨by rw [hfor1]; rfl, rfl, rfl, rfl, rfl, rfl⟩

/-- Witness for c1_pay_idempotent at a concrete first run. -/
theorem c1_pay_idempotent_witness :
    (paymentsFor (payFlow false noFaults paidDb paidReq).2 "u1" paidPost.id PaymentType.content).length = 1 ∧
    (payFlow false noFaults (payFlow false noFaults paidDb paidReq).2 paidReq).1 = PayResult.success true ∧
    ((payFlow false noFaults (payFlow false noFaults paidDb paidReq).2 paidReq).2).payments
      = ((payFlow false noFaults paidDb paidReq).2).payments ∧
    ((payFlow false noFaults (payFlow false noFaults paidDb paidReq).2 paidReq).2).investors
      = ((payFlow false noFaults paidDb paidReq).2).investors ∧
    ((payFlow false noFaults (payFlow false noFaults paidDb paidReq).2 paidReq).2).platformFees
      = ((payFlow false noFaults paidDb paidReq).2).platformFees ∧
    ((payFlow false noFaults (payFlow false noFaults paidDb paidReq).2 paidReq).2).x402Log
      = ((payFlow false noFaults paidDb paidReq).2).x402Log :=
  c1_pay_idempotent false paidDb paidReq "u1" paidPost
    (payFlow false noFaults paidDb paidReq).2 noFaults rfl rfl rfl

/-- Positions column of the investor rows of one post, in stored order. -/
def positionsFor (db : DB) (pid : String) : List ℕ :=
  (investorsFor db pid).map InvestorRow.position

/-- A sequence of pay requests processed one after the other; returns the
final state and the per-request responses. -/
def runPays (isProd : Bool) (db : DB) : List PayRequest → DB × List PayResult
  | [] => (db, [])
  | r :: rest =>
      ((runPays isProd (payFlow isProd noFaults db r).2 rest).1,
        (payFlow isProd noFaults db r).1 :: (runPays isProd (payFlow isProd noFaults db r).2 rest).2)

/-- A post with the view counter zeroed: the pay route touches no other
post column. -/
def dropView (p : Post) : Post := { p with viewCount := 0 }

/-- The pay route leaves the posts table unchanged except possibly for one
view-count bump. -/
theorem payFlow_posts {isProd : Bool} {fs : Faults} {db : DB} {req : PayRequest}
    {res : PayResult} {db' : DB} (h : payFlow isProd fs db req = (res, db')) :
    db'.posts = db.posts ∨ db'.posts = (incrementViewCount db req.postId).posts := by
  unfold payFlow at h
  split at h
  · rw [Prod.mk.injEq] at h
    obtain ⟨_, h2⟩ := h
    subst h2
    exact Or.inl rfl
  · split at h
    · rw [Prod.mk.injEq] at h
      obtain ⟨_, h2⟩ := h
      subst h2
      exact Or.inl rfl
    · split at h
      · rw [Prod.mk.injEq] at h
        obtain ⟨_, h2⟩ := h
        subst h2
        exact Or.inr rfl
      · split at h
        · rw [Prod.mk.injEq] at h
          obtain ⟨_, h2⟩ := h
          subst h2
          exact Or.inr rfl
        · split at h
          · rw [Prod.mk.injEq] at h
            obtain ⟨_, h2⟩ := h
            subst h2
            exact Or.inr rfl
          · split at h
            · rw [Prod.mk.injEq] at h
              obtain ⟨_, h2⟩ := h
              subst h2
              exact Or.inr rfl
            · split at h
              · rw [Prod.mk.injEq] at h
                obtain ⟨_, h2⟩ := h
                subst h2
                exact Or.inr rfl
              next payRec db2 hcp =>
                obtain ⟨_, _, _, hposts1, _⟩ := payAfterInsert_shape h
                obtain ⟨_, hposts2, _⟩ := createPayment_ok hcp
                exact Or.inr (by rw [hposts1, hposts2])

/-- Post columns other than the view counter survive a pay request. -/
theorem payFlow_dropView {isProd : Bool} {fs : Faults} {db : DB} {req : PayRequest}
    {res : PayResult} {db' : DB} (h : payFlow isProd fs db req = (res, db')) (pid' : String) :
    (getPost db' pid').map dropView = (getPost db pid').map dropView := by
  cases payFlow_posts h with
  | inl he => rw [getPost_eq_of_posts he]
  | inr he =>
      rw [getPost_eq_of_posts he, getPost_incrementViewCount]
      cases getPost db pid' with
      | none => rfl
      | some p =>
          simp only [Option.map_some']
          by_cases hp : p.id = req.postId
          · simp only [if_pos hp]
            rfl
          · simp only [if_neg hp]

/-- Post columns other than the view counter survive a request sequence. -/
theorem runPays_dropView (isProd : Bool) (pid' : String) :
    ∀ (reqs : List PayRequest) (db : DB),
      (getPost (runPays isProd db reqs).1 pid').map dropView = (getPost db pid').map dropView := by
  intro reqs
  induction reqs with
  | nil => intro db; rfl
  | cons r rest ih =>
      intro db
      unfold runPays
      rw [ih, payFlow_dropView (Prod.mk.eta (p := payFlow isProd noFaults db r)).symm]

theorem investorsFor_congr {dbA dbB : DB} (h : dbA.investors = dbB.investors) (pid : String) :
    investorsFor dbA pid = investorsFor dbB pid := by
  unfold investorsFor
  rw [h]

/-- A fresh-success buyout request appends exactly one investor row, at
the next dense position, for the requested post and payer. -/
theorem payFlow_buyout_success {isProd : Bool} {db : DB} {req : PayRequest} {db' : DB}
    (hbuy : req.isBuyout = true)
    (hrun : payFlow isProd noFaults db req = (.success false, db')) :
    ∃ uid post row, req.viewer = some uid ∧ getPost db req.postId = some post ∧
      db'.investors = db.investors ++ [row] ∧ row.postId = post.id ∧ row.userId = uid ∧
      row.position = (investorsFor db post.id).length + 1 ∧ row.totalEarnings = 0 ∧
      (investorsFor db post.id).length < maxSlotsOf post := by
  obtain ⟨uid, post, payRec, db2, hv, hpost, hacc, hpaid, hnet, hslots, hfree, hempty, hcp, hai⟩ :=
    payFlow_success_shape hrun
  obtain ⟨_, _, hinv2, _⟩ := createPayment_ok hcp
  have hinv2' : db2.investors = db.investors := hinv2
  have hcount : (investorsFor db post.id).length < maxSlotsOf post := by
    rw [hbuy] at hslots
    simp only [Bool.true_and, decide_eq_false_iff_not, not_le] at hslots
    exact hslots
  unfold payAfterInsert at hai
  rw [hfree] at hai
  simp only [Bool.false_eq_true, if_false] at hai
  have hff : noFaults.feeInsert = false := rfl
  rw [hff] at hai
  simp only [Bool.false_eq_true, if_false] at hai
  have hinvF : (insertPlatformFee db2 payRec.id post.id).investors = db.investors := by
    rw [insertPlatformFee_investors, hinv2']
  have hc1 : (req.isBuyout && decide ((investorsFor (insertPlatformFee db2 payRec.id post.id) post.id).length < maxSlotsOf post)) = true := by
    rw [hbuy, investorsFor_congr hinvF]
    simpa using hcount
  unfold payBranch at hai
  split at hai
  · split at hai
    next hfault =>
      exact absurd hfault (by simp [noFaults])
    · split at hai
      next e heq =>
        simp at hai
      next db3 heq =>
        obtain ⟨_, _, hinv3, _⟩ := insertInvestor_ok heq
        obtain ⟨_, hfinvest, _⟩ := finishPay_shape hai
        refine ⟨uid, post,
          { id := (insertPlatformFee db2 payRec.id post.id).nextId, postId := post.id,
            userId := uid,
            position := (investorsFor (insertPlatformFee db2 payRec.id post.id) post.id).length + 1,
            investmentAmount := post.buyoutPrice.getD post.price, totalEarnings := 0 },
          hv, hpost, ?_, rfl, rfl, ?_, rfl, hcount⟩
        · rw [hfinvest, hinv3, hinvF]
        · show (investorsFor (insertPlatformFee db2 payRec.id post.id) post.id).length + 1
            = (investorsFor db post.id).length + 1
          rw [investorsFor_congr hinvF]
  next hc =>
    exact absurd hc1 hc

/-- A buyout attempt on a full pool is rejected before any write except
the view counter. -/
theorem payFlow_slots_full {isProd : Bool} {fs : Faults} {db : DB} {req : PayRequest}
    {uid : String} {post : Post}
    (hv : req.viewer = some uid) (hpost : getPost db req.postId = some post)
    (hacc : post.acceptedCryptos.contains req.cryptocurrency = true)
    (hpaid : hasUserPaid db uid post.id .content = false)
    (hnet : networkBad isProd req = false) (hbuy : req.isBuyout = true)
    (hfull : maxSlotsOf post ≤ (investorsFor db post.id).length) :
    payFlow isProd fs db req = (.slotsFull, incrementViewCount db req.postId) := by
  have hpaid1 : hasUserPaid (incrementViewCount db req.postId) uid post.id .content = false := by
    rw [hasUserPaid_incrementViewCount]
    exact hpaid
  unfold payFlow
  simp only [hv, hpost]
  rw [hacc]
  simp only [Bool.not_true, Bool.false_eq_true, if_false]
  rw [hpaid1]
  simp only [Bool.false_eq_true, if_false]
  rw [hnet]
  simp only [Bool.false_eq_true, if_false]
  rw [hbuy]
  have hdec : decide (maxSlotsOf post ≤ getInvestorCount (incrementViewCount db req.postId) post.id) = true := by
    simp only [decide_eq_true_eq]
    exact hfull
  rw [hdec]
  simp

/-- Successful buyout sequences extend the position column densely. -/
theorem runPays_positions (isProd : Bool) (pid : String) :
    ∀ (reqs : List PayRequest) (db : DB),
      (∀ r ∈ reqs, r.postId = pid ∧ r.isBuyout = true) →
      (∀ res ∈ (runPays isProd db reqs).2, res = PayResult.success false) →
      positionsFor (runPays isProd db reqs).1 pid
        = positionsFor db pid ++ List.range' ((investorsFor db pid).length + 1) reqs.length := by
  intro reqs
  induction reqs with
  | nil =>
      intro db _ _
      simp [runPays]
  | cons r rest ih =>
      intro db hall hsucc
      have hbuy : r.isBuyout = true := (hall r (List.mem_cons_self _ _)).2
      have hpid : r.postId = pid := (hall r (List.mem_cons_self _ _)).1
      have hres : (payFlow isProd noFaults db r).1 = PayResult.success false := by
        apply hsucc
        exact List.mem_cons_self _ _
      have hrun : payFlow isProd noFaults db r = (.success false, (payFlow isProd noFaults db r).2) := by
        rw [← hres]
      obtain ⟨uid, post, row, hv, hpost, hinv', hrowpid, hrowuid, hrowpos, hrowearn, _⟩ :=
        payFlow_buyout_success hbuy hrun
      have hpostid : post.id = pid := by rw [getPost_id hpost, hpid]
      rw [hpostid] at hrowpos
      have hrowpid' : row.postId = pid := by rw [hrowpid, hpostid]
      have hinvFor : investorsFor (payFlow isProd noFaults db r).2 pid
          = investorsFor db pid ++ [row] := by
        unfold investorsFor
        rw [hinv', List.filter_append]
        congr 1
        simp [hrowpid']
      have hposFor : positionsFor (payFlow isProd noFaults db r).2 pid
          = positionsFor db pid ++ [(investorsFor db pid).length + 1] := by
        unfold positionsFor
        rw [hinvFor]
        simp [hrowpos]
      have hall' : ∀ q ∈ rest, q.postId = pid ∧ q.isBuyout = true :=
        fun q hq => hall q (List.mem_cons_of_mem _ hq)
      have hsucc' : ∀ res ∈ (runPays isProd (payFlow isProd noFaults db r).2 rest).2,
          res = PayResult.success false := by
        intro res hres'
        exact hsucc res (List.mem_cons_of_mem _ hres')
      have hrec := ih (payFlow isProd noFaults db r).2 hall' hsucc'
      show positionsFor (runPays isProd (payFlow isProd noFaults db r).2 rest).1 pid = _
      rw [hrec, hposFor, hinvFor]
      rw [List.append_assoc]
      congr 1
      have hlen : (investorsFor db pid ++ [row]).length = (investorsFor db pid).length + 1 := by
        simp
      rw [hlen]
      simp only [List.length_cons]
      rw [List.range'_succ, List.singleton_append]

/-- C2: starting from a post with no investors and maxInvestorSlots equal
to the number of requests, a run of successful buyout payments assigns the
positions 1..N exactly, densely and without duplicates, and any further
validated buyout attempt is rejected with the slots-full error, leaving
the investors table untouched. -/
theorem c2_slot_density (isProd : Bool) (db0 : DB) (pid : String) (reqs : List PayRequest)
    (post0 : Post)
    (hinv0 : investorsFor db0 pid = [])
    (hpost0 : getPost db0 pid = some post0)
    (hN : maxSlotsOf post0 = reqs.length)
    (hall : ∀ r ∈ reqs, r.postId = pid ∧ r.isBuyout = true)
    (hsucc : ∀ res ∈ (runPays isProd db0 reqs).2, res = PayResult.success false) :
    positionsFor (runPays isProd db0 reqs).1 pid = List.range' 1 reqs.length ∧
    (∀ req' uid', req'.postId = pid → req'.isBuyout = true → req'.viewer = some uid' →
      post0.acceptedCryptos.contains req'.cryptocurrency = true →
      hasUserPaid (runPays isProd db0 reqs).1 uid' pid .content = false →
      networkBad isProd req' = false →
      payFlow isProd noFaults (runPays isProd db0 reqs).1 req'
        = (.slotsFull, incrementViewCount (runPays isProd db0 reqs).1 req'.postId) ∧
      ((payFlow isProd noFaults (runPays isProd db0 reqs).1 req').2).investors
        = ((runPays isProd db0 reqs).1).investors) := by
  have hpos : positionsFor (runPays isProd db0 reqs).1 pid = List.range' 1 reqs.length := by
    rw [runPays_positions isProd pid reqs db0 hall hsucc]
    unfold positionsFor
    rw [hinv0]
    simp
  refine ⟨hpos, ?_⟩
  intro req' uid' hpid' hbuy' hv' hacc' hpaidN hnet'
  have hdrop := runPays_dropView isProd pid reqs db0
  rw [hpost0] at hdrop
  cases hgetN : getPost (runPays isProd db0 reqs).1 pid with
  | none =>
      rw [hgetN] at hdrop
      simp at hdrop
  | some postN =>
      rw [hgetN] at hdrop
      simp only [Option.map_some'] at hdrop
      injection hdrop with hdv
      have hmaxN : postN.maxInvestors = post0.maxInvestors := by
        have h := congrArg Post.maxInvestors hdv
        exact h
      have haccN : postN.acceptedCryptos.contains req'.cryptocurrency = true := by
        have h0 := congrArg Post.acceptedCryptos hdv
        have h : postN.acceptedCryptos = post0.acceptedCryptos := h0
        rw [h]
        exact hacc'
      have hpostNid : postN.id = pid := getPost_id hgetN
      have hlenN : (investorsFor (runPays isProd db0 reqs).1 pid).length = reqs.length := by
        have h := congrArg List.length hpos
        simpa [positionsFor] using h
      have hfullN : maxSlotsOf postN ≤ (investorsFor (runPays isProd db0 reqs).1 postN.id).length := by
        rw [hpostNid, hlenN]
        rw [show maxSlotsOf postN = maxSlotsOf post0 by unfold maxSlotsOf; rw [hmaxN]]
        rw [hN]
      have hgetN' : getPost (runPays isProd db0 reqs).1 req'.postId = some postN := by
        rw [hpid']
        exact hgetN
      have hpaidN' : hasUserPaid (runPays isProd db0 reqs).1 uid' postN.id .content = false := by
        rw [hpostNid]
        exact hpaidN
      have hrej : payFlow isProd noFaults (runPays isProd db0 reqs).1 req'
          = (.slotsFull, incrementViewCount (runPays isProd db0 reqs).1 req'.postId) :=
        payFlow_slots_full hv' hgetN' haccN hpaidN' hnet' hbuy' hfullN
      refine ⟨hrej, ?_⟩
      rw [hrej]
      rfl

/-- A two-slot buyout post. -/
def slotPost : Post :=
  { freePost with
      id := "p3", isFree := false, price := 5, buyoutPrice := some (10 : ℚ),
      maxInvestors := 2, commentsLocked := false }

/-- Database holding only the two-slot post. -/
def slotDb : DB :=
  { posts := [slotPost], payments := [], investors := [], platformFees := [],
    users := [], x402Log := [], nextId := 0 }

/-- A buyout request for the two-slot post by the given user. -/
def buyReq (u : String) : PayRequest :=
  { viewer := some u, postId := "p3", amount := 10, transactionHash := none,
    cryptocurrency := "USDC", network := none, isBuyout := true }

/-- Witness for c2_slot_density: two successful buyouts fill positions
[1, 2] and a third buyout attempt is rejected without a new row. -/
theorem c2_slot_density_witness :
    positionsFor (runPays false slotDb [buyReq "u1", buyReq "u2"]).1 "p3" = List.range' 1 2 ∧
    (payFlow false noFaults (runPays false slotDb [buyReq "u1", buyReq "u2"]).1 (buyReq "u3")
        = (.slotsFull, incrementViewCount (runPays false slotDb [buyReq "u1", buyReq "u2"]).1 (buyReq "u3").postId) ∧
      ((payFlow false noFaults (runPays false slotDb [buyReq "u1", buyReq "u2"]).1 (buyReq "u3")).2).investors
        = ((runPays false slotDb [buyReq "u1", buyReq "u2"]).1).investors) := by
  have h := c2_slot_density false slotDb "p3" [buyReq "u1", buyReq "u2"] slotPost
    rfl rfl rfl (by decide) (by decide)
  exact ⟨h.1, h.2 (buyReq "u3") "u3" rfl rfl rfl (by decide) rfl rfl⟩

/-- Per-row effect of one earnings update of the distribution loop: the
row with the updated id gets the rounded sum, every other row is kept. -/
def updFn (per : ℚ) (r y : InvestorRow) : InvestorRow :=
  if y.id = r.id then { y with totalEarnings := round6 (r.totalEarnings + per) } else y

/-- Without an injected fault the distribution loop runs to completion,
folding the per-row updates over the fetched rows. -/
theorem distributeAux_none (per : ℚ) :
    ∀ (l : List InvestorRow) (idx : ℕ) (db : DB),
      distributeAux none per l idx db
        = .ok (List.foldl (fun d r => setInvestorEarnings d r.id (round6 (r.totalEarnings + per))) db l) := by
  intro l
  induction l with
  | nil => intro idx db; rfl
  | cons r rest ih =>
      intro idx db
      unfold distributeAux
      rw [if_neg (by simp)]
      rw [List.foldl_cons]
      exact ih _ _

/-- The investors table of the completed loop is the fold of the
elementwise updates. -/
theorem foldl_set_investors (per : ℚ) :
    ∀ (l : List InvestorRow) (db : DB),
      (List.foldl (fun d r => setInvestorEarnings d r.id (round6 (r.totalEarnings + per))) db l).investors
        = List.foldl (fun acc r => acc.map (updFn per r)) db.investors l := by
  intro l
  induction l with
  | nil => intro db; rfl
  | cons r rest ih =>
      intro db
      rw [List.foldl_cons, List.foldl_cons]
      exact ih (setInvestorEarnings db r.id (round6 (r.totalEarnings + per)))

/-- A fold of elementwise maps is the elementwise map of the folds. -/
theorem foldl_map_comm {α β : Type} (f : α → β → β) :
    ∀ (l : List α) (xs : List β),
      List.foldl (fun acc a => acc.map (f a)) xs l
        = xs.map (fun x => List.foldl (fun y a => f a y) x l) := by
  intro l
  induction l with
  | nil => intro xs; simp
  | cons a l ih =>
      intro xs
      rw [List.foldl_cons, ih, List.map_map]
      rfl

/-- The composite per-row effect of the whole loop. -/
def gFold (per : ℚ) (l : List InvestorRow) (x : InvestorRow) : InvestorRow :=
  List.foldl (fun y r => updFn per r y) x l

theorem gFold_nomatch (per : ℚ) :
    ∀ (l : List InvestorRow) (x : InvestorRow), (∀ r ∈ l, r.id ≠ x.id) → gFold per l x = x := by
  intro l
  induction l with
  | nil => intro x _; rfl
  | cons r rest ih =>
      intro x h
      unfold gFold
      rw [List.foldl_cons]
      have hx : updFn per r x = x := by
        unfold updFn
        rw [if_neg]
        intro hc
        exact h r (List.mem_cons_self _ _) hc.symm
      rw [hx]
      exact ih x (fun q hq => h q (List.mem_cons_of_mem _ hq))

theorem gFold_hit (per : ℚ) (l1 l2 : List InvestorRow) (x : InvestorRow)
    (h1 : ∀ r ∈ l1, r.id ≠ x.id) (h2 : ∀ r ∈ l2, r.id ≠ x.id) :
    gFold per (l1 ++ x :: l2) x = { x with totalEarnings := round6 (x.totalEarnings + per) } := by
  unfold gFold
  rw [List.foldl_append]
  rw [show List.foldl (fun y r => updFn per r y) x l1 = gFold per l1 x from rfl,
    gFold_nomatch per l1 x h1]
  rw [List.foldl_cons]
  rw [show updFn per x x = { x with totalEarnings := round6 (x.totalEarnings + per) } from by
    unfold updFn; rw [if_pos rfl]]
  exact gFold_nomatch per l2 _ (fun r hr => h2 r hr)

/-- With distinct row ids, the loop over the rows of one post credits
exactly the rows of that post, each once. -/
theorem gFold_filter (per : ℚ) (pid : String) (inv : List InvestorRow)
    (hnodup : (inv.map InvestorRow.id).Nodup) (x : InvestorRow) (hx : x ∈ inv) :
    gFold per (inv.filter (fun i => decide (i.postId = pid))) x
      = if x.postId = pid then { x with totalEarnings := round6 (x.totalEarnings + per) } else x := by
  by_cases hp : x.postId = pid
  · rw [if_pos hp]
    have hxf : x ∈ inv.filter (fun i => decide (i.postId = pid)) :=
      List.mem_filter.mpr ⟨hx, by simp [hp]⟩
    obtain ⟨l1, l2, hsplit⟩ := List.append_of_mem hxf
    have hnf : ((inv.filter (fun i => decide (i.postId = pid))).map InvestorRow.id).Nodup :=
      List.Nodup.sublist ((List.filter_sublist _).map _) hnodup
    rw [hsplit] at hnf
    simp only [List.map_append, List.map_cons, List.nodup_append, List.nodup_cons] at hnf
    have h1 : ∀ r ∈ l1, r.id ≠ x.id := by
      intro r hr hc
      exact hnf.2.2 (List.mem_map_of_mem _ hr) (by rw [hc]; exact List.mem_cons_self _ _)
    have h2 : ∀ r ∈ l2, r.id ≠ x.id := by
      intro r hr hc
      exact hnf.2.1.1 (by rw [← hc]; exact List.mem_map_of_mem _ hr)
    rw [hsplit]
    exact gFold_hit per l1 l2 x h1 h2
  · rw [if_neg hp]
    apply gFold_nomatch
    intro r hr hc
    have hrx : r = x := List.inj_on_of_nodup_map hnodup (List.mem_of_mem_filter hr) hx hc
    subst hrx
    have := List.mem_filter.mp hr
    simp at this
    exact hp this.2

/-- The completed distribution over the fetched rows of one post rewrites
the investors table pointwise: every row of that post gains the rounded
per-investor share, every other row is untouched. -/
theorem distributed_investors (per : ℚ) (pid : String) {db : DB}
    (hnodup : (db.investors.map InvestorRow.id).Nodup) {dbD : DB}
    (h : distributeAux none per (investorsFor db pid) 0 db = .ok dbD) :
    dbD.investors = db.investors.map (fun x =>
      if x.postId = pid then { x with totalEarnings := round6 (x.totalEarnings + per) } else x) := by
  rw [distributeAux_none] at h
  injection h with h
  subst h
  rw [foldl_set_investors, foldl_map_comm]
  apply List.map_congr_left
  intro x hx
  exact gFold_filter per pid db.investors hnodup x hx

/-- The comment grant never touches the investors table. -/
theorem finishPay_investors (db : DB) (post : Post) (uid : String) (req : PayRequest) :
    ((finishPay db post uid req).2).investors = db.investors := by
  unfold finishPay
  split
  · split
    next e heq => rfl
    next r0 db2 heq =>
        obtain ⟨_, _, hinv, _⟩ := createPayment_ok heq
        exact hinv
  · rfl

/-- Core of the distribution analysis: a validated non-buyout payment on
a full pool with a positive revenue share and at least maxSlots prior
content payments rewrites the investors table pointwise, adding the
6-decimal rounding of the per-investor share to every investor of the
post and leaving all other rows untouched. -/
theorem c3_core (isProd : Bool) (db : DB) (req : PayRequest) (uid : String) (post : Post)
    (hv : req.viewer = some uid) (hpost : getPost db req.postId = some post)
    (hacc : post.acceptedCryptos.contains req.cryptocurrency = true)
    (hpaid : hasUserPaid db uid post.id .content = false)
    (hnet : networkBad isProd req = false)
    (hbuy : req.isBuyout = false)
    (hfull : (investorsFor db post.id).length = maxSlotsOf post)
    (hshare : 0 < post.investorRevenueShare)
    (hcount : maxSlotsOf post ≤ paymentNumberOf db post.id)
    (hnodup : (db.investors.map InvestorRow.id).Nodup) :
    ((payFlow isProd noFaults db req).2).investors
      = db.investors.map (fun x => if x.postId = post.id then
          { x with totalEarnings := round6 (x.totalEarnings +
              perInvestorShare req post (investorsFor db post.id).length) } else x) := by
  have hid : post.id = req.postId := getPost_id hpost
  have hpost2 : getPost db post.id = some post := by rw [hid]; exact hpost
  obtain ⟨hfree, hempty⟩ := hasUserPaid_eq_false hpost2 hpaid
  have hany := any_eq_false_of_paymentsFor_nil hempty
  have hpaid1 : hasUserPaid (incrementViewCount db req.postId) uid post.id .content = false := by
    rw [hasUserPaid_incrementViewCount]
    exact hpaid
  have hcpEx : ∃ payRec db2,
      createPayment (incrementViewCount db req.postId) (contentInsert isProd uid req post)
        = .ok (payRec, db2) := by
    rw [createPayment_ok_iff]
    intro hc
    simp only [contentInsert, incrementViewCount_payments] at hc
    rw [hany] at hc
    simp at hc
  obtain ⟨payRec, db2, hcp⟩ := hcpEx
  obtain ⟨hp2, hposts2, hinv2, _, _, _, _, hu, hpid, _, hty, _⟩ := createPayment_ok hcp
  have hty' : payRec.paymentType = PaymentType.content := by simpa [contentInsert] using hty
  have hpid' : payRec.postId = post.id := by simpa [contentInsert] using hpid
  have hinvF : (insertPlatformFee db2 payRec.id post.id).investors = db.investors := by
    rw [insertPlatformFee_investors, hinv2, incrementViewCount_investors]
  have hinvForF : investorsFor (insertPlatformFee db2 payRec.id post.id) post.id
      = investorsFor db post.id := investorsFor_congr hinvF _
  have hpayF : (insertPlatformFee db2 payRec.id post.id).payments = db.payments ++ [payRec] := by
    rw [insertPlatformFee_payments, hp2, incrementViewCount_payments]
  have hnum : paymentNumberOf (insertPlatformFee db2 payRec.id post.id) post.id
      = paymentNumberOf db post.id + 1 := by
    unfold paymentNumberOf
    rw [hpayF, List.filter_append]
    simp [hpid', hty']
  have hc1 : (req.isBuyout && decide ((investorsFor (insertPlatformFee db2 payRec.id post.id) post.id).length < maxSlotsOf post)) = false := by
    rw [hbuy]
    exact Bool.false_and _
  have hc2 : (decide (maxSlotsOf post < paymentNumberOf (insertPlatformFee db2 payRec.id post.id) post.id)
      && decide ((investorsFor (insertPlatformFee db2 payRec.id post.id) post.id).length = maxSlotsOf post)
      && decide (0 < post.investorRevenueShare)) = true := by
    rw [hnum, hinvForF]
    simp only [Bool.and_eq_true, decide_eq_true_eq]
    exact ⟨⟨by omega, hfull⟩, hshare⟩
  obtain ⟨dbD, hD⟩ : ∃ d, distributeAux none
      (perInvestorShare req post (investorsFor (insertPlatformFee db2 payRec.id post.id) post.id).length)
      (investorsFor (insertPlatformFee db2 payRec.id post.id) post.id) 0
      (insertPlatformFee db2 payRec.id post.id) = .ok d :=
    ⟨_, distributeAux_none _ _ _ _⟩
  have hflow : payFlow isProd noFaults db req
      = finishPay (if (creatorOf (insertPlatformFee db2 payRec.id post.id) post).isSome
            then appendLog dbD (distributionSettlement (insertPlatformFee db2 payRec.id post.id) dbD post req)
            else dbD) post uid req := by
    unfold payFlow
    simp only [hv, hpost]
    rw [hacc]
    simp only [Bool.not_true, Bool.false_eq_true, if_false]
    rw [hpaid1]
    simp only [Bool.false_eq_true, if_false]
    rw [hnet]
    simp only [Bool.false_eq_true, if_false]
    rw [hbuy]
    simp only [Bool.false_and, Bool.false_eq_true, if_false]
    simp only [hcp]
    unfold payAfterInsert
    rw [hfree]
    simp only [Bool.false_eq_true, if_false]
    rw [show noFaults.feeInsert = false from rfl]
    simp only [Bool.false_eq_true, if_false]
    unfold payBranch
    rw [hc1]
    simp only [Bool.false_eq_true, if_false]
    rw [hc2]
    rw [show noFaults.distributionAt = none from rfl]
    simp only [hD, if_true]
  have hinvfin : ((payFlow isProd noFaults db req).2).investors = dbD.investors := by
    rw [hflow, finishPay_investors]
    split
    · simp
    · rfl
  rw [hinvfin]
  have hnodupF : ((insertPlatformFee db2 payRec.id post.id).investors.map InvestorRow.id).Nodup := by
    rw [hinvF]
    exact hnodup
  have hres := distributed_investors
    (perInvestorShare req post (investorsFor (insertPlatformFee db2 payRec.id post.id) post.id).length)
    post.id hnodupF hD
  rw [hinvForF] at hres
  rw [hres, hinvF]

/-- C3 amended: under the stated conditions every one of the K current
investors is credited in the completed run — none skipped — but the stored
amount is the 6-decimal rounding of oldEarnings + (A - 0.05) * R/100 / K
(the route stores `(current + perShare).toFixed(6)`), not the exact sum. -/
theorem c3_revenue_distribution (isProd : Bool) (db : DB) (req : PayRequest) (uid : String) (post : Post)
    (hv : req.viewer = some uid) (hpost : getPost db req.postId = some post)
    (hacc : post.acceptedCryptos.contains req.cryptocurrency = true)
    (hpaid : hasUserPaid db uid post.id .content = false)
    (hnet : networkBad isProd req = false)
    (hbuy : req.isBuyout = false)
    (hfull : (investorsFor db post.id).length = maxSlotsOf post)
    (hshare : 0 < post.investorRevenueShare)
    (hcount : maxSlotsOf post ≤ paymentNumberOf db post.id)
    (hnodup : (db.investors.map InvestorRow.id).Nodup) :
    ((payFlow isProd noFaults db req).2).investors
      = db.investors.map (fun x => if x.postId = post.id then
          { x with totalEarnings := round6 (x.totalEarnings +
              perInvestorShare req post (investorsFor db post.id).length) } else x) ∧
    (investorsFor (payFlow isProd noFaults db req).2 post.id).map InvestorRow.totalEarnings
      = (investorsFor db post.id).map (fun x =>
          round6 (x.totalEarnings + perInvestorShare req post (investorsFor db post.id).length)) := by
  have h := c3_core isProd db req uid post hv hpost hacc hpaid hnet hbuy hfull hshare hcount hnodup
  refine ⟨h, ?_⟩
  unfold investorsFor
  rw [h, List.filter_map]
  have hpred : ((fun i => decide (i.postId = post.id)) ∘ (fun x : InvestorRow =>
      if x.postId = post.id then
        { x with totalEarnings := round6 (x.totalEarnings +
            perInvestorShare req post (investorsFor db post.id).length) } else x))
      = fun x : InvestorRow => decide (x.postId = post.id) := by
    funext x
    by_cases hx : x.postId = post.id <;> simp [Function.comp_def, hx]
  rw [hpred, List.map_map]
  apply List.map_congr_left
  intro x hx
  have hxp := (List.mem_filter.mp hx).2
  simp only [decide_eq_true_eq] at hxp
  simp only [Function.comp_def, if_pos hxp]
  rfl

/-- A full three-investor post with a 20 percent revenue share. -/
def c3post : Post :=
  { freePost with
      id := "p4", isFree := false, price := 5, maxInvestors := 3,
      investorRevenueShare := 20, commentsLocked := false }

/-- A prior buyout content payment row. -/
def c3pay (i : ℕ) (u : String) : PaymentRec :=
  { id := i, userId := u, postId := "p4", amount := 10, cryptocurrency := "USDC",
    network := "base-sepolia", isBuyout := true, transactionHash := "t",
    paymentType := .content }

/-- An investor row of the full pool. -/
def c3inv (i : ℕ) (u : String) (pos : ℕ) : InvestorRow :=
  { id := i, postId := "p4", userId := u, position := pos,
    investmentAmount := 10, totalEarnings := 0 }

/-- State with the pool full: three buyout payments and three investors. -/
def c3db : DB :=
  { posts := [c3post],
    payments := [c3pay 10 "u1", c3pay 11 "u2", c3pay 12 "u3"],
    investors := [c3inv 1 "u1" 1, c3inv 2 "u2" 2, c3inv 3 "u3" 3],
    platformFees := [], users := [], x402Log := [], nextId := 20 }

/-- A fourth user paying 5.10 at regular price. -/
def c3req : PayRequest :=
  { viewer := some "u4", postId := "p4", amount := 51 / 10, transactionHash := none,
    cryptocurrency := "USDC", network := none, isBuyout := false }

/-- Witness for c3_revenue_distribution at the concrete full-pool run. -/
theorem c3_revenue_distribution_witness :
    ((payFlow false noFaults c3db c3req).2).investors
      = c3db.investors.map (fun x => if x.postId = c3post.id then
          { x with totalEarnings := round6 (x.totalEarnings +
              perInvestorShare c3req c3post (investorsFor c3db c3post.id).length) } else x) ∧
    (investorsFor (payFlow false noFaults c3db c3req).2 c3post.id).map InvestorRow.totalEarnings
      = (investorsFor c3db c3post.id).map (fun x =>
          round6 (x.totalEarnings + perInvestorShare c3req c3post (investorsFor c3db c3post.id).length)) :=
  c3_revenue_distribution false c3db c3req "u4" c3post rfl rfl rfl rfl rfl rfl rfl
    (by norm_num [c3post, freePost]) (by decide) (by decide)

/-- C3 counterexample: in the concrete run the three investors all end at
0.336667, the 6-decimal rounding of 101/300, which differs from the exact
per-investor share (5.10 - 0.05) * 20/100 / 3 = 101/300 the claim
demands. -/
theorem c3_counterexample :
    ((payFlow false noFaults c3db c3req).2).investors.map InvestorRow.totalEarnings
      = [(336667 : ℚ)/1000000, 336667/1000000, 336667/1000000] ∧
    (336667 : ℚ)/1000000 ≠ 0 + perInvestorShare c3req c3post 3 := by
  have hval : round6 (0 + perInvestorShare c3req c3post (investorsFor c3db c3post.id).length)
      = (336667 : ℚ)/1000000 := by
    have harg : (0 : ℚ) + perInvestorShare c3req c3post (investorsFor c3db c3post.id).length
        = 101/300 := by
      unfold perInvestorShare PLATFORM_FEE_USDC
      norm_num [c3req, c3post, freePost,
        show (investorsFor c3db "p4").length = 3 from rfl]
    rw [harg]
    unfold round6
    rw [round_eq]
    norm_num [Int.floor_eq_iff]
  have h := c3_core false c3db c3req "u4" c3post rfl rfl rfl rfl rfl rfl rfl
    (by norm_num [c3post, freePost]) (by decide) (by decide)
  constructor
  · rw [h]
    show [round6 ((0:ℚ) + perInvestorShare c3req c3post (investorsFor c3db c3post.id).length),
          round6 ((0:ℚ) + perInvestorShare c3req c3post (investorsFor c3db c3post.id).length),
          round6 ((0:ℚ) + perInvestorShare c3req c3post (investorsFor c3db c3post.id).length)] = _
    rw [hval]
  · intro hc
    rw [show (0 : ℚ) + perInvestorShare c3req c3post 3 = 101/300 from by
      unfold perInvestorShare PLATFORM_FEE_USDC
      norm_num [c3req, c3post, freePost]] at hc
    norm_num at hc

/-! AES-256-GCM, the cipher behind `crypto.createCipheriv("aes-256-gcm")`
in `encryption.ts`, implemented concretely: GF(2^8) arithmetic, the S-box
from the multiplicative inverse and affine map, the AES-256 key schedule
and rounds, counter-mode keystream, and GHASH over GF(2^128).  Bytes are
naturals below 256; blocks are 16-byte lists in the column-major order of
the AES state. -/

/-- Multiplication by x in GF(2^8) modulo the AES polynomial 0x11b. -/
def xtime (a : ℕ) : ℕ :=
  if a &&& 0x80 ≠ 0 then ((a <<< 1) ^^^ 0x1b) &&& 0xff else (a <<< 1) &&& 0xff

/-- Russian-peasant product in GF(2^8). -/
def gmulAux : ℕ → ℕ → ℕ → ℕ → ℕ
  | 0, _, _, acc => acc
  | n + 1, a, b, acc =>
      gmulAux n (xtime a) (b >>> 1) (if b &&& 1 = 1 then acc ^^^ a else acc)

def gmul8 (a b : ℕ) : ℕ := gmulAux 8 a b 0

def gpow8 (a : ℕ) : ℕ → ℕ
  | 0 => 1
  | n + 1 => gmul8 a (gpow8 a n)

/-- Multiplicative inverse in GF(2^8) as a^254 (sending 0 to 0, as the
AES S-box specifies). -/
def ginv8 (a : ℕ) : ℕ := gpow8 a 254

/-- Rotate a byte left by n bits. -/
def rotl8 (b n : ℕ) : ℕ := ((b <<< n) ||| (b >>> (8 - n))) &&& 0xff

/-- The AES S-box: inverse followed by the affine transformation. -/
def sbox (a : ℕ) : ℕ :=
  ginv8 a ^^^ rotl8 (ginv8 a) 1 ^^^ rotl8 (ginv8 a) 2 ^^^ rotl8 (ginv8 a) 3
    ^^^ rotl8 (ginv8 a) 4 ^^^ 0x63

def subWord (w : List ℕ) : List ℕ := w.map sbox

def rotWord (w : List ℕ) : List ℕ := w.drop 1 ++ w.take 1

def xorWord (a b : List ℕ) : List ℕ := List.zipWith (· ^^^ ·) a b

/-- Round-constant bytes: rconByte k is x^k in GF(2^8). -/
def rconByte : ℕ → ℕ
  | 0 => 1
  | k + 1 => xtime (rconByte k)

/-- AES-256 key schedule: 8 key words expanded to 60 round-key words. -/
def expandWords (key : List ℕ) : List (List ℕ) :=
  (List.range 52).foldl
    (fun ws i0 =>
      let i := i0 + 8
      let prev := ws.getD (i - 1) [0, 0, 0, 0]
      let temp :=
        if i % 8 = 0 then
          xorWord (subWord (rotWord prev)) [rconByte (i / 8 - 1), 0, 0, 0]
        else if i % 8 = 4 then subWord prev
        else prev
      ws ++ [xorWord (ws.getD (i - 8) [0, 0, 0, 0]) temp])
    ((List.range 8).map (fun i => (key.drop (4 * i)).take 4))

/-- The 16 round-key bytes of round r, column-major. -/
def roundKey (ws : List (List ℕ)) (r : ℕ) : List ℕ := ((ws.drop (4 * r)).take 4).flatten

/-- Totalizes a byte list to one 16-byte block. -/
def toBlock (l : List ℕ) : List ℕ := (List.range 16).map (fun i => l.getD i 0)

def subBytes (st : List ℕ) : List ℕ := st.map sbox

/-- ShiftRows on the column-major state: row r rotates left by r. -/
def shiftRows (st : List ℕ) : List ℕ :=
  (List.range 16).map (fun i => st.getD (i % 4 + 4 * ((i / 4 + i % 4) % 4)) 0)

def mixColumn (a0 a1 a2 a3 : ℕ) : List ℕ :=
  [gmul8 2 a0 ^^^ gmul8 3 a1 ^^^ a2 ^^^ a3,
   a0 ^^^ gmul8 2 a1 ^^^ gmul8 3 a2 ^^^ a3,
   a0 ^^^ a1 ^^^ gmul8 2 a2 ^^^ gmul8 3 a3,
   gmul8 3 a0 ^^^ a1 ^^^ a2 ^^^ gmul8 2 a3]

def mixColumns (st : List ℕ) : List ℕ :=
  ((List.range 4).map (fun c =>
    mixColumn (st.getD (4 * c) 0) (st.getD (4 * c + 1) 0)
      (st.getD (4 * c + 2) 0) (st.getD (4 * c + 3) 0))).flatten

def addRoundKey (st rk : List ℕ) : List ℕ := List.zipWith (· ^^^ ·) st rk

/-- AES-256 block encryption: 14 rounds, the last without MixColumns. -/
def aesEncryptBlock (key block : List ℕ) : List ℕ :=
  let ws := expandWords key
  let st0 := addRoundKey (toBlock block) (roundKey ws 0)
  let stMid := (List.range 13).foldl
    (fun st r => addRoundKey (mixColumns (shiftRows (subBytes st))) (roundKey ws (r + 1))) st0
  toBlock (addRoundKey (shiftRows (subBytes stMid)) (roundKey ws 14))

/-- Big-endian 4-byte rendering of a 32-bit counter. -/
def beBytes4 (n : ℕ) : List ℕ :=
  [n / 2 ^ 24 % 256, n / 2 ^ 16 % 256, n / 2 ^ 8 % 256, n % 256]

/-- Big-endian 8-byte rendering. -/
def beBytes8 (n : ℕ) : List ℕ := beBytes4 (n / 2 ^ 32) ++ beBytes4 n

/-- The GCM counter block for a 12-byte IV. -/
def counterBlock (iv : List ℕ) (ctr : ℕ) : List ℕ := iv.take 12 ++ beBytes4 (ctr % 2 ^ 32)

/-- n keystream blocks starting at the given counter. -/
def ksAux (key iv : List ℕ) : ℕ → ℕ → List ℕ
  | 0, _ => []
  | n + 1, ctr => aesEncryptBlock key (counterBlock iv ctr) ++ ksAux key iv n (ctr + 1)

/-- The content keystream (counters from 2, counter 1 masks the tag). -/
def gcmKeystream (key iv : List ℕ) (n : ℕ) : List ℕ :=
  (ksAux key iv ((n + 15) / 16) 2).take n

def xorBytes (a b : List ℕ) : List ℕ := List.zipWith (· ^^^ ·) a b

/-- Big-endian value of a byte list. -/
def bytesToNat (l : List ℕ) : ℕ := l.foldl (fun acc b => acc * 256 + b % 256) 0

/-- Big-endian 16-byte rendering of a 128-bit value. -/
def natToBytes16 (x : ℕ) : List ℕ :=
  (List.range 16).map (fun i => x / 2 ^ (8 * (15 - i)) % 256)

/-- The GHASH reduction constant, 0xe1 followed by 120 zero bits. -/
def R128 : ℕ := 0xe1 <<< 120

/-- Right-shift multiplication in GF(2^128) with the GHASH reduction. -/
def gmul128Aux : ℕ → ℕ → ℕ → ℕ → ℕ
  | 0, _, _, z => z
  | n + 1, x, v, z =>
      gmul128Aux n ((x <<< 1) % 2 ^ 128)
        (if v % 2 = 1 then (v >>> 1) ^^^ R128 else v >>> 1)
        (if (x >>> 127) % 2 = 1 then z ^^^ v else z)

def gmul128 (x y : ℕ) : ℕ := gmul128Aux 128 x y 0

/-- Splits data into 16-byte blocks, zero-padding the last. -/
def chunks16 : List ℕ → List (List ℕ)
  | [] => []
  | a :: rest => toBlock (a :: rest.take 15) :: chunks16 (rest.drop 15)
termination_by l => l.length
decreasing_by simp [List.length_drop]; omega

/-- The GCM authentication tag of a ciphertext with no additional
authenticated data: GHASH keyed by E(K, 0) over the padded ciphertext and
the length block, masked with E(K, J0). -/
def gcmTag (key iv ct : List ℕ) : List ℕ :=
  let h := bytesToNat (aesEncryptBlock key (List.replicate 16 0))
  let blocks := chunks16 ct ++ [beBytes8 0 ++ beBytes8 (8 * ct.length)]
  xorBytes (aesEncryptBlock key (counterBlock iv 1))
    (natToBytes16 (blocks.foldl (fun y b => gmul128 (y ^^^ bytesToNat b) h) 0))

/-- Result of encryptBuffer, mirroring the EncryptionResult interface. -/
structure EncryptionResult where
  encrypted : List ℕ
  iv : List ℕ
  authTag : List ℕ
deriving DecidableEq

/-- Tag verification failure raised by `decipher.final()`. -/
inductive IntegrityError
| tagMismatch
deriving DecidableEq

/-- encryptBuffer: AES-256-GCM seal.  The source draws a fresh random
12-byte IV per call (`crypto.randomBytes(12)`); randomness is modelled by
taking the IV as an argument. -/
def encryptBuffer (buffer key iv : List ℕ) : EncryptionResult :=
  { encrypted := xorBytes buffer (gcmKeystream key iv buffer.length),
    iv := iv,
    authTag := gcmTag key iv (xorBytes buffer (gcmKeystream key iv buffer.length)) }

/-- decryptBuffer: AES-256-GCM open; a hard IntegrityError when the
authentication tag does not verify. -/
def decryptBuffer (encrypted key iv authTag : List ℕ) : Except IntegrityError (List ℕ) :=
  if gcmTag key iv encrypted = authTag then
    .ok (xorBytes encrypted (gcmKeystream key iv encrypted.length))
  else .error .tagMismatch

/-- The stored content-key envelope (encryptedKey, iv, authTag); the
base64 rendering of the source columns is elided, fields hold raw bytes. -/
structure EncryptedKeyData where
  encryptedKey : List ℕ
  iv : List ℕ
  authTag : List ℕ
deriving DecidableEq

/-- The process master key: the configured secret padded with "0" to 32
characters and truncated to 32 bytes. -/
def deriveMasterKey (secret : String) : List ℕ :=
  ((secret.data.map Char.toNat) ++ List.replicate 32 48).take 32

/-- encryptContentKey: seals the per-post content key under the master
key. -/
def encryptContentKey (masterKey contentKey iv : List ℕ) : EncryptedKeyData :=
  { encryptedKey := (encryptBuffer contentKey masterKey iv).encrypted,
    iv := (encryptBuffer contentKey masterKey iv).iv,
    authTag := (encryptBuffer contentKey masterKey iv).authTag }

/-- decryptContentKey: opens the stored envelope with the master key. -/
def decryptContentKey (masterKey : List ℕ) (d : EncryptedKeyData) : Except IntegrityError (List ℕ) :=
  decryptBuffer d.encryptedKey masterKey d.iv d.authTag

/-! Structural facts about the GCM embedding.  None of these evaluate the
AES round function: they only use lengths and xor algebra, so every
statement about concrete seals stays symbolic in the block cipher. -/

theorem toBlock_length (l : List ℕ) : (toBlock l).length = 16 := by
  simp [toBlock]

theorem aesEncryptBlock_length (key block : List ℕ) :
    (aesEncryptBlock key block).length = 16 := toBlock_length _

theorem natToBytes16_length (x : ℕ) : (natToBytes16 x).length = 16 := by
  simp [natToBytes16]

theorem gcmTag_length (key iv ct : List ℕ) : (gcmTag key iv ct).length = 16 := by
  simp [gcmTag, xorBytes, aesEncryptBlock_length, natToBytes16_length]

theorem ksAux_length (key iv : List ℕ) (n : ℕ) :
    ∀ ctr, (ksAux key iv n ctr).length = 16 * n := by
  induction n with
  | zero => intro ctr; rfl
  | succ m ih =>
      intro ctr
      simp only [ksAux, List.length_append, aesEncryptBlock_length, ih (ctr + 1)]
      ring

theorem gcmKeystream_length (key iv : List ℕ) (n : ℕ) :
    (gcmKeystream key iv n).length = n := by
  simp only [gcmKeystream, List.length_take, ksAux_length]
  omega

theorem xorBytes_cancel : ∀ (a b : List ℕ), a.length ≤ b.length →
    xorBytes (xorBytes a b) b = a
  | [], _, _ => by simp [xorBytes]
  | _ :: _, [], h => absurd h (by simp)
  | x :: xs, y :: ys, h => by
      have ih := xorBytes_cancel xs ys (by simpa using h)
      simp only [xorBytes, List.zipWith_cons_cons] at ih ⊢
      rw [ih, Nat.xor_assoc, Nat.xor_self, Nat.xor_zero]

/-- Opening a seal with the tag the seal produced recovers the plaintext. -/
theorem gcm_roundtrip (buffer key iv : List ℕ) :
    decryptBuffer (encryptBuffer buffer key iv).encrypted key iv
      (encryptBuffer buffer key iv).authTag = .ok buffer := by
  have hks : (gcmKeystream key iv buffer.length).length = buffer.length :=
    gcmKeystream_length key iv buffer.length
  have henc : (xorBytes buffer (gcmKeystream key iv buffer.length)).length
      = buffer.length := by
    simp [xorBytes, hks]
  simp only [encryptBuffer, decryptBuffer]
  rw [if_pos trivial, henc]
  exact congrArg Except.ok (xorBytes_cancel buffer _ (le_of_eq hks.symm))

theorem gcmKeystream_one (key iv : List ℕ) : ∃ x, gcmKeystream key iv 1 = [x] :=
  List.length_eq_one.mp (gcmKeystream_length key iv 1)

/-- C8 (corrected): for every buffer, key and IV, opening the seal with the
key, IV and authentication tag it produced returns the original buffer; and
presenting any tag other than the GCM tag of the presented ciphertext makes
decryptBuffer fail with IntegrityError.tagMismatch.  (The original claim's
universal tamper clause falls to `c8_counterexample`: replacing the
ciphertext and tag together by another valid seal under the same key and IV
opens successfully to a different plaintext.) -/
theorem c8_encryption_roundtrip (buffer key iv t : List ℕ)
    (ht : t ≠ (encryptBuffer buffer key iv).authTag) :
    decryptBuffer (encryptBuffer buffer key iv).encrypted key iv
        (encryptBuffer buffer key iv).authTag = .ok buffer ∧
    decryptBuffer (encryptBuffer buffer key iv).encrypted key iv t
        = .error .tagMismatch := by
  refine ⟨gcm_roundtrip buffer key iv, ?_⟩
  simp only [encryptBuffer, decryptBuffer] at ht ⊢
  rw [if_neg (fun h => ht h.symm)]

theorem c8_encryption_roundtrip_witness :
    ([] : List ℕ) ≠ (encryptBuffer [] [] []).authTag ∧
    (decryptBuffer (encryptBuffer [] [] []).encrypted [] []
        (encryptBuffer [] [] []).authTag = .ok [] ∧
     decryptBuffer (encryptBuffer [] [] []).encrypted [] [] []
        = .error .tagMismatch) := by
  have hne : ([] : List ℕ) ≠ (encryptBuffer [] [] []).authTag := by
    intro h
    have h16 : ((encryptBuffer ([] : List ℕ) [] []).authTag).length = 16 :=
      gcmTag_length [] [] _
    rw [← h] at h16
    simp at h16
  exact ⟨hne, c8_encryption_roundtrip [] [] [] [] hne⟩

/-- C8 counterexample: a "tampered" ciphertext/tag pair — the seal of the
byte 0x01 in place of the seal of 0x00, under the same key and IV — differs
from the original pair, yet decryptBuffer accepts it and returns the wrong
plaintext instead of raising IntegrityError.  Verification of the tag alone
cannot tie the ciphertext to the originally sealed buffer. -/
theorem c8_counterexample :
    ((encryptBuffer [1] (List.replicate 32 0) (List.replicate 12 0)).encrypted,
       (encryptBuffer [1] (List.replicate 32 0) (List.replicate 12 0)).authTag)
      ≠ ((encryptBuffer [0] (List.replicate 32 0) (List.replicate 12 0)).encrypted,
       (encryptBuffer [0] (List.replicate 32 0) (List.replicate 12 0)).authTag) ∧
    decryptBuffer
        (encryptBuffer [1] (List.replicate 32 0) (List.replicate 12 0)).encrypted
        (List.replicate 32 0) (List.replicate 12 0)
        (encryptBuffer [1] (List.replicate 32 0) (List.replicate 12 0)).authTag
      = .ok [1] ∧
    ([1] : List ℕ) ≠ [0] := by
  obtain ⟨x, hx⟩ := gcmKeystream_one (List.replicate 32 0) (List.replicate 12 0)
  have h1 : (encryptBuffer [1] (List.replicate 32 0) (List.replicate 12 0)).encrypted
      = [1 ^^^ x] := by
    simp only [encryptBuffer, List.length_cons, List.length_nil, Nat.zero_add, hx,
      xorBytes, List.zipWith_cons_cons, List.zipWith_nil_left]
  have h0 : (encryptBuffer [0] (List.replicate 32 0) (List.replicate 12 0)).encrypted
      = [x] := by
    simp only [encryptBuffer, List.length_cons, List.length_nil, Nat.zero_add, hx,
      xorBytes, List.zipWith_cons_cons, List.zipWith_nil_left, Nat.zero_xor]
  refine ⟨?_, gcm_roundtrip [1] (List.replicate 32 0) (List.replicate 12 0), by simp⟩
  intro hpair
  have henc := congrArg Prod.fst hpair
  rw [h1, h0] at henc
  have hx1 : (1 : ℕ) ^^^ x = x := by
    simpa using henc
  have h2 := congrArg (fun z => z ^^^ x) hx1
  simp only [Nat.xor_assoc, Nat.xor_self, Nat.xor_zero] at h2
  simp at h2

/-! The media-serving route GET /api/posts/:id/media (the spec's
AccessGate.resolve).  The blob store backing readEncryptedFile is a path →
bytes association list; the process master key is a parameter. -/

/-- readEncryptedFile: none models a thrown read error (missing blob). -/
def readEncryptedFile (blobs : List (String × List ℕ)) (path : String) : Option (List ℕ) :=
  (blobs.find? (fun b => decide (b.1 = path))).map Prod.snd

/-- The shared decrypt-and-serve block of the route: read the blob, open
the content-key envelope, split the file into IV ∥ ciphertext ∥ tag as the
route slices it, and open the ciphertext.  none models the caught
decryptError / read failure. -/
def serveDecrypted (mk : List ℕ) (blobs : List (String × List ℕ)) (post : Post) :
    Option (List ℕ) :=
  match readEncryptedFile blobs post.encryptedMediaPath with
  | none => none
  | some buf =>
      match decryptContentKey mk
          { encryptedKey := post.encryptedKey, iv := post.keyIv, authTag := post.keyAuthTag } with
      | .error _ => none
      | .ok contentKey =>
          match decryptBuffer ((buf.take (buf.length - 16)).drop 12) contentKey
              (buf.take 12) (buf.drop (buf.length - 16)) with
          | .error _ => none
          | .ok plain => some plain

def mimeOf (post : Post) : String :=
  if post.mediaType = "image" then "image/jpeg" else "video/mp4"

/-- What the media route sends back. -/
inductive MediaResult
| notFound
| media (bytes : List ℕ) (mime : String)
| blurred (path : String)
deriving DecidableEq

/-- isCreator as the route computes it (false when no user resolves). -/
def isCreatorOf (user : Option String) (post : Post) : Bool :=
  match user with
  | some uid => decide (uid = post.creatorId)
  | none => false

/-- hasPaid as the route computes it: only looked up for a resolved
non-creator user, with paymentType content. -/
def hasPaidView (db : DB) (pid : String) (user : Option String) (post : Post) : Bool :=
  match user with
  | some uid => if uid = post.creatorId then false else hasUserPaid db uid pid .content
  | none => false

/-- The decrypt-and-respond tail of both serving branches: full media on
success, a redirect to the blurred thumbnail when decryption fails. -/
def serveOr (mk : List ℕ) (blobs : List (String × List ℕ)) (post : Post) : MediaResult :=
  match serveDecrypted mk blobs post with
  | some bytes => .media bytes (mimeOf post)
  | none => .blurred post.blurredThumbnailPath

/-- GET /api/posts/:id/media: 404 for a missing post; free posts are
served decrypted to anyone; otherwise a viewer who is neither the creator
nor a content payer gets the blurred thumbnail, and an entitled viewer gets
the decrypted media (degrading to the blurred thumbnail on failure). -/
def accessGateResolve (mk : List ℕ) (blobs : List (String × List ℕ)) (db : DB)
    (pid : String) (user : Option String) : MediaResult :=
  match getPost db pid with
  | none => .notFound
  | some post =>
      if post.isFree then serveOr mk blobs post
      else if !(isCreatorOf user post) && !(hasPaidView db pid user post) then
        .blurred post.blurredThumbnailPath
      else serveOr mk blobs post

/-- C6: for every existing post the media route never 404s or hard-fails:
an entitled viewer (free post, creator, or content payer) receives exactly
the decrypt-and-serve outcome, every other viewer receives the blurred
thumbnail, and a decryption or blob-read failure on the entitled path
degrades to the blurred thumbnail rather than an error. -/
theorem c6_access_gate (mk : List ℕ) (blobs : List (String × List ℕ)) (db : DB)
    (pid : String) (user : Option String) (post : Post)
    (hpost : getPost db pid = some post) :
    accessGateResolve mk blobs db pid user ≠ MediaResult.notFound ∧
    (post.isFree = true ∨ isCreatorOf user post = true ∨ hasPaidView db pid user post = true →
      accessGateResolve mk blobs db pid user = serveOr mk blobs post) ∧
    (¬ (post.isFree = true ∨ isCreatorOf user post = true ∨ hasPaidView db pid user post = true) →
      accessGateResolve mk blobs db pid user = MediaResult.blurred post.blurredThumbnailPath) ∧
    (serveDecrypted mk blobs post = none →
      serveOr mk blobs post = MediaResult.blurred post.blurredThumbnailPath) := by
  have hNF : serveOr mk blobs post ≠ MediaResult.notFound := by
    unfold serveOr
    cases serveDecrypted mk blobs post <;> simp
  have hgate : accessGateResolve mk blobs db pid user =
      if post.isFree then serveOr mk blobs post
      else if !(isCreatorOf user post) && !(hasPaidView db pid user post) then
        MediaResult.blurred post.blurredThumbnailPath
      else serveOr mk blobs post := by
    unfold accessGateResolve
    rw [hpost]
  refine ⟨?_, ?_, ?_, ?_⟩
  · rw [hgate]
    by_cases hfree : post.isFree = true
    · simp only [hfree, if_true]
      exact hNF
    · simp only [Bool.not_eq_true] at hfree
      simp only [hfree, Bool.false_eq_true, if_false]
      by_cases hcp : (!(isCreatorOf user post) && !(hasPaidView db pid user post)) = true
      · simp [hcp]
      · simp only [Bool.not_eq_true] at hcp
        simp only [hcp, Bool.false_eq_true, if_false]
        exact hNF
  · intro h
    rw [hgate]
    by_cases hfree : post.isFree = true
    · simp [hfree]
    · simp only [Bool.not_eq_true] at hfree
      rcases h with h | h | h
      · rw [hfree] at h
        exact absurd h (by simp)
      · simp [hfree, h]
      · simp [hfree, h]
  · intro h
    push_neg at h
    obtain ⟨h1, h2, h3⟩ := h
    simp only [Bool.not_eq_true] at h1 h2 h3
    rw [hgate]
    simp [h1, h2, h3]
  · intro h
    unfold serveOr
    rw [h]

theorem c6_access_gate_witness :
    getPost dbFree freePost.id = some freePost ∧
    (accessGateResolve [] [] dbFree freePost.id none ≠ MediaResult.notFound ∧
     (freePost.isFree = true ∨ isCreatorOf none freePost = true ∨
        hasPaidView dbFree freePost.id none freePost = true →
       accessGateResolve [] [] dbFree freePost.id none = serveOr [] [] freePost) ∧
     (¬ (freePost.isFree = true ∨ isCreatorOf none freePost = true ∨
        hasPaidView dbFree freePost.id none freePost = true) →
       accessGateResolve [] [] dbFree freePost.id none
         = MediaResult.blurred freePost.blurredThumbnailPath) ∧
     (serveDecrypted [] [] freePost = none →
       serveOr [] [] freePost = MediaResult.blurred freePost.blurredThumbnailPath)) :=
  ⟨rfl, c6_access_gate [] [] dbFree freePost.id none freePost rfl⟩

end Teasr
